import Mathlib

/-!
Verification of the resilient document-repair and schema-enforcement pipeline
(`schema-enforcer/scripts/validate_and_fix_json.py` and
`resilient-config-patcher/scripts/repair_json.py`).

The embedding models:
  * JSON values as the inductive `JVal`; documents (top-level parsed JSON
    objects, i.e. Python dicts produced by `json.loads`) as ordered
    association lists `Doc` with string keys, matching the Document data
    model (an ordered mapping with unique keys preserving insertion order);
  * the heuristic repair pipeline `heuristic_repair` character-by-character,
    reproducing the behaviour of the specific regular expressions in the
    source on ASCII text (Python's `\s`, `\d`, `str.strip`, `str.lower`
    are modelled by their ASCII meaning, and `int(str)` without the
    underscore-separator extension, which no claim exercises);
  * the strict JSON parser (`json.loads`) as an abstract parameter
    `parse : String → Except JsonError Doc` — the spec declares a
    conformant parser to be an assumed primitive, and every claim below
    concerns the call-site policy or the enforcement, not the grammar;
  * Python dict operations (`get`, `in`, `[]=`, `.items()`) directly on the
    association lists;
  * uncaught Python exceptions (`KeyError` from `field['name']`,
    `TypeError`/`AttributeError` from iterating or subscripting non-objects)
    as the `PyCrash` error monad.  A field spec whose `name` value is not a
    string is outside the modelled domain (`PyCrash.nameNotString`): JSON
    object keys are strings and no claim involves such a schema;
  * floats as exact rationals (`Rat`): the only float operation the claims
    touch is Python's `int(float)` truncation toward zero, which is exact.
-/

namespace Enforcer

/-- Python ASCII whitespace, the characters matched by `\s` and stripped by
`str.strip()` on the ASCII inputs of the claims. -/
def pySpace (c : Char) : Bool :=
  c == ' ' || c == '\t' || c == '\n' || c == '\r' || c == '\x0b' || c == '\x0c'

/-- Drop trailing Python whitespace. -/
def rstripWs (l : List Char) : List Char :=
  (l.reverse.dropWhile pySpace).reverse

/-- Python `str.strip()` on a character list. -/
def pstrip (l : List Char) : List Char :=
  rstripWs (l.dropWhile pySpace)

/-- Python `str.strip()` on a `String`. -/
def pstripStr (s : String) : String :=
  String.mk (pstrip s.data)

/-- JSON values, as produced by `json.loads`: the closed tagged variant of
the data model (string, integer, float, boolean, null, list, mapping).
Python distinguishes `int` from `float` and from `bool`, which matters for
the `type(val) != int` check, so the model does too.  Floats are exact
rationals (see the header). -/
inductive JVal where
  | str (s : String)
  | int (n : Int)
  | float (q : Rat)
  | bool (b : Bool)
  | null
  | list (l : List JVal)
  | obj (o : List (String × JVal))

/-- A parsed document: an ordered mapping from string keys to values,
exactly the shape `json.loads` hands to the enforcer loop. -/
abbrev Doc := List (String × JVal)

/-- Python dict lookup `d[k]` / `k in d` support: first binding wins (the
dicts produced by `json.loads` have unique keys). -/
def pyLookup : Doc → String → Option JVal
  | [], _ => none
  | (k', v) :: rest, k => if k' = k then some v else pyLookup rest k

/-- Python `d.get(k, dflt)`. -/
def pyGet (d : Doc) (k : String) (dflt : JVal) : JVal :=
  (pyLookup d k).getD dflt

/-- The keys of a document, in order. -/
def keysOf (d : Doc) : List String :=
  d.map Prod.fst

/-- Boolean key-membership test, Python's `k in d`. -/
def containsKey : Doc → String → Bool
  | [], _ => false
  | (k', _) :: rest, k => k' = k || containsKey rest k

/-- Replace the value stored at key `k`, keeping its position: the effect of
Python's `d[k] = v` when `k in d`. -/
def replaceKey : Doc → String → JVal → Doc
  | [], _, _ => []
  | (k', v') :: rest, k, v =>
    (if k' = k then (k, v) else (k', v')) :: replaceKey rest k v

/-- Python `d[k] = v`: update in place if the key exists, else append. -/
def dinsert (d : Doc) (k : String) (v : JVal) : Doc :=
  if containsKey d k then replaceKey d k v else d ++ [(k, v)]

/-- Python truthiness of a JSON value (`if is_required or ...`). -/
def pyTruthy : JVal → Bool
  | .null => false
  | .bool b => b
  | .int n => decide (n ≠ 0)
  | .float q => decide (q ≠ 0)
  | .str s => decide (s ≠ "")
  | .list l => !l.isEmpty
  | .obj o => !o.isEmpty

/-- `v is None` for a JSON value (`json.loads` maps JSON null to `None`). -/
def JVal.isNull : JVal → Bool
  | .null => true
  | _ => false

/-- Python `v == "lit"` for a JSON value against a string literal. -/
def JVal.eqStr : JVal → String → Bool
  | .str s, t => s == t
  | _, _ => false

/-- Python `type(val) == int` (false for `bool`, which is a distinct type). -/
def pyIsInt : JVal → Bool
  | .int _ => true
  | _ => false

/-- Value of a list of ASCII digits. -/
def digitsVal (ds : List Char) : Nat :=
  ds.foldl (fun acc c => acc * 10 + (c.toNat - '0'.toNat)) 0

/-- Python `int(s)` on a string: surrounding whitespace stripped, optional
sign, then a nonempty run of decimal digits; anything else raises
`ValueError` (modelled as `none`). -/
def pyIntOfString (s : String) : Option Int :=
  let cs := pstrip s.data
  match cs with
  | '-' :: ds =>
    if ds ≠ [] ∧ ds.all Char.isDigit then some (-(digitsVal ds : Int)) else none
  | '+' :: ds =>
    if ds ≠ [] ∧ ds.all Char.isDigit then some ((digitsVal ds : Int)) else none
  | ds =>
    if ds ≠ [] ∧ ds.all Char.isDigit then some ((digitsVal ds : Int)) else none

/-- Truncation toward zero, the rounding of Python `int(float)`. -/
def ratTrunc (q : Rat) : Int :=
  q.num.sign * ((q.num.natAbs / q.den : Nat) : Int)

/-- Python `int(val)` on an arbitrary JSON value: `none` models a raised
`ValueError` or `TypeError` (both caught by the enforcer). -/
def pyIntCoerce : JVal → Option Int
  | .int n => some n
  | .bool b => some (if b then 1 else 0)
  | .float q => some (ratTrunc q)
  | .str s => pyIntOfString s
  | .null => none
  | .list _ => none
  | .obj _ => none

/-- Python `str.lower()` (ASCII). -/
def pyLower (s : String) : String :=
  String.mk (s.data.map Char.toLower)

/-- `get_safe_default` from the source: the type-safe empty value used when
no default is provided in the schema. -/
def get_safe_default (dtype : String) : JVal :=
  let d := pyLower dtype
  if d = "string" then .str ""
  else if d = "integer" then .int 0
  else if d = "float" then .float 0
  else if d = "boolean" then .bool false
  else if d = "list" then .list []
  else if d = "dict" then .obj []
  else .null

/-! ### The heuristic repair pipeline (`heuristic_repair`)

Each regex substitution of the source is reproduced as a left-to-right scan.
The scans recurse on strict suffixes; a fuel argument (initialised to more
than the input length) makes them structurally recursive so that concrete
runs reduce definitionally. -/

/-- The backtick character (delimiter of Markdown code fences). -/
def tick : Char := Char.ofNat 96

/-- Does the text start with three backticks? -/
def startsTicks (l : List Char) : Bool :=
  match l with
  | a :: b :: c :: _ => a == tick && b == tick && c == tick
  | _ => false

/-- Split at the first occurrence of three consecutive backticks:
`some (before, after)` with `input = before ++ ticks ++ after`. -/
def splitAtTicks : List Char → Option (List Char × List Char)
  | [] => none
  | c :: rest =>
    if startsTicks (c :: rest) then some ([], (c :: rest).drop 3)
    else
      match splitAtTicks rest with
      | some (pre, post) => some (c :: pre, post)
      | none => none

/-- Step 1 of `heuristic_repair`: `re.search` of the fence pattern
(three backticks, optional `json` tag, greedy whitespace, lazy body,
greedy whitespace, three closing backticks) and extraction of group 1.
When there is no complete fence the text is returned unchanged, exactly as
in the source (the `if` guard plus a failed search both leave `text`
alone). -/
def fenceExtract (text : List Char) : List Char :=
  match splitAtTicks text with
  | none => text
  | some (_, afterOpen) =>
    let afterJson :=
      if afterOpen.take 4 = ['j', 's', 'o', 'n'] then afterOpen.drop 4 else afterOpen
    let body := afterJson.dropWhile pySpace
    match splitAtTicks body with
    | some (content, _) => rstripWs content
    | none => text

/-- Step 2: `re.sub` of a closing quote followed by optional whitespace with
a lookahead quote, replaced by a quote, comma and space; scanning resumes at
the lookahead quote. -/
def joinStringsGo : Nat → List Char → List Char
  | 0, l => l
  | _ + 1, [] => []
  | fuel + 1, c :: rest =>
    if c == '"' then
      match rest.dropWhile pySpace with
      | c2 :: tl =>
        if c2 == '"' then '"' :: ',' :: ' ' :: joinStringsGo fuel (c2 :: tl)
        else c :: joinStringsGo fuel rest
      | [] => c :: joinStringsGo fuel rest
    else c :: joinStringsGo fuel rest

/-- Match the literal alternation `(\d|true|false|null)` at the head of the
text, returning the matched literal and the remainder. -/
def litTake : List Char → Option (List Char × List Char)
  | [] => none
  | c :: rest =>
    if c.isDigit then some ([c], rest)
    else if (c :: rest).take 4 = ['t', 'r', 'u', 'e'] then
      some (['t', 'r', 'u', 'e'], (c :: rest).drop 4)
    else if (c :: rest).take 5 = ['f', 'a', 'l', 's', 'e'] then
      some (['f', 'a', 'l', 's', 'e'], (c :: rest).drop 5)
    else if (c :: rest).take 4 = ['n', 'u', 'l', 'l'] then
      some (['n', 'u', 'l', 'l'], (c :: rest).drop 4)
    else none

/-- Step 3: `re.sub` inserting a comma and space after a numeric or atomic
literal that is followed (across whitespace) by a quote. -/
def insertCommasGo : Nat → List Char → List Char
  | 0, l => l
  | _ + 1, [] => []
  | fuel + 1, c :: rest =>
    match litTake (c :: rest) with
    | some (lit, after) =>
      match after.dropWhile pySpace with
      | c2 :: tl =>
        if c2 == '"' then lit ++ ',' :: ' ' :: insertCommasGo fuel (c2 :: tl)
        else c :: insertCommasGo fuel rest
      | [] => c :: insertCommasGo fuel rest
    | none => c :: insertCommasGo fuel rest

/-- Step 4: `re.sub` deleting a comma that precedes (across lazy whitespace)
a closing brace or bracket; the whitespace and closer are kept. -/
def dropCommasGo : Nat → List Char → List Char
  | 0, l => l
  | _ + 1, [] => []
  | fuel + 1, c :: rest =>
    if c == ',' then
      match rest.dropWhile pySpace with
      | c2 :: tl =>
        if c2 == '\x7d' || c2 == ']' then
          rest.takeWhile pySpace ++ c2 :: dropCommasGo fuel tl
        else ',' :: dropCommasGo fuel rest
      | [] => ',' :: dropCommasGo fuel rest
    else c :: dropCommasGo fuel rest

/-- Step 5: count opening versus closing braces and brackets independently
and append the missing closers at the end. -/
def balanceClosers (l : List Char) : List Char :=
  let oc := l.count '\x7b'
  let cc := l.count '\x7d'
  let l1 := if cc < oc then l ++ List.replicate (oc - cc) '\x7d' else l
  let os := l1.count '['
  let cs := l1.count ']'
  if cs < os then l1 ++ List.replicate (os - cs) ']' else l1

/-- `heuristic_repair` from the source: strip, fence extraction, the three
regex repairs in order, then brace/bracket balancing. -/
def heuristic_repair (broken_json : String) : String :=
  let t0 := pstrip broken_json.data
  let t1 := fenceExtract t0
  let t2 := joinStringsGo (t1.length + 1) t1
  let t3 := insertCommasGo (t2.length + 1) t2
  let t4 := dropCommasGo (t3.length + 1) t3
  String.mk (balanceClosers t4)

/-! ### The enforcer loop -/

/-- Uncaught Python exceptions that abort the interpreter (and the model of
a field spec with a non-string name, see the header). -/
inductive PyCrash where
  | keyError
  | typeError
  | attrError
  | nameNotString
deriving DecidableEq

/-- One recorded correction.  The source records formatted strings whose
fixed prefixes `MISSING FIELD`, `TYPE FIX` and `TYPE ERROR` correspond
one-to-one to these three kinds; each carries the field name and the data
the format string interpolates. -/
inductive Correction where
  | missingFieldInjected (field : String) (value : JVal) (dtype : JVal)
  | typeCoerced (field : String)
  | typeCoercionFailedFallback (field : String) (value : JVal)

/-- The field a correction was recorded for. -/
def Correction.fieldOf : Correction → String
  | .missingFieldInjected n _ _ => n
  | .typeCoerced n => n
  | .typeCoercionFailedFallback n _ => n

/-- Is the correction a `MissingFieldInjected` record? -/
def Correction.isMissingInjected : Correction → Bool
  | .missingFieldInjected _ _ _ => true
  | _ => false

/-- `get_safe_default(dtype)` as called by the enforcer: `dtype.lower()`
raises `AttributeError` when the schema's `type` value is not a string. -/
def getSafeDefaultJ : JVal → Except PyCrash JVal
  | .str s => .ok (get_safe_default s)
  | _ => .error .attrError

/-- The body of the enforcer loop once the field's name is known: lines
143-165 of the source (`name not in data` check, default injection, integer
coercion with fallback, and the `ordered_data[name] = val` insertion). -/
def stepNamed (data : Doc) (od : Doc) (cs : List Correction) (name : String)
    (dtype isReq schemaDefault : JVal) : Except PyCrash (Doc × List Correction) :=
  match pyLookup data name with
  | none =>
    if pyTruthy isReq || !schemaDefault.isNull then
      match (if !schemaDefault.isNull then Except.ok schemaDefault
             else getSafeDefaultJ dtype) with
      | .error e => .error e
      | .ok fv =>
        .ok (dinsert od name fv, cs ++ [.missingFieldInjected name fv dtype])
    else .ok (od, cs)
  | some val =>
    if dtype.eqStr "integer" then
      if pyIsInt val then .ok (dinsert od name val, cs)
      else
        match pyIntCoerce val with
        | some n => .ok (dinsert od name (.int n), cs ++ [.typeCoerced name])
        | none =>
          let fb := if !schemaDefault.isNull then schemaDefault else .int 0
          .ok (dinsert od name fb, cs ++ [.typeCoercionFailedFallback name fb])
    else .ok (dinsert od name val, cs)

/-- The body of the enforcer loop, factored over the four values the source
reads from the field spec (`field['name']`, `field.get('type','string')`,
`field.get('required', False)`, `field.get('default', None)`).  A missing
`name` key raises `KeyError` (`field['name']`). -/
def stepCore (data : Doc) (od : Doc) (cs : List Correction)
    (nameV : Option JVal) (dtype isReq schemaDefault : JVal) :
    Except PyCrash (Doc × List Correction) :=
  match nameV with
  | none => .error .keyError
  | some (.str name) => stepNamed data od cs name dtype isReq schemaDefault
  | some _ => .error .nameNotString

/-- One iteration of the enforcer loop on a single schema field spec.
Subscripting a non-object (`field['name']`) raises `TypeError`. -/
def enforceStep (data : Doc) (od : Doc) (cs : List Correction) (field : JVal) :
    Except PyCrash (Doc × List Correction) :=
  match field with
  | .obj fobj =>
    stepCore data od cs (pyLookup fobj "name")
      (pyGet fobj "type" (.str "string"))
      (pyGet fobj "required" (.bool false))
      (pyGet fobj "default" .null)
  | _ => .error .typeError

/-- The enforcer loop over the schema's field list. -/
def enforceLoop (data : Doc) : List JVal → Doc → List Correction →
    Except PyCrash (Doc × List Correction)
  | [], od, cs => .ok (od, cs)
  | f :: fs, od, cs =>
    match enforceStep data od cs f with
    | .error e => .error e
    | .ok (od', cs') => enforceLoop data fs od' cs'

/-- The pass-through phase: every key of the original document not already
present in `ordered_data` is appended unchanged, in original order. -/
def passThrough (od : Doc) : Doc → Doc
  | [] => od
  | kv :: rest =>
    if containsKey od kv.1 then passThrough od rest
    else passThrough (od ++ [kv]) rest

/-- `schema.get('fields', [])` followed by iteration: a missing `fields` key
yields the empty list; iterating a dict yields its keys, a string its
characters; numbers, booleans and null are not iterable (`TypeError`);
`.get` on a non-dict schema raises `AttributeError`. -/
def fieldsOf (schema : JVal) : Except PyCrash (List JVal) :=
  match schema with
  | .obj o =>
    match pyGet o "fields" (.list []) with
    | .list l => .ok l
    | .obj fo => .ok (fo.map (fun p => JVal.str p.1))
    | .str s => .ok (s.data.map (fun c => JVal.str (String.mk [c])))
    | _ => .error .typeError
  | _ => .error .attrError

/-- Phases 3 and 4 of `validate_and_fix`: the enforcer loop over the schema
followed by the pass-through of undeclared keys. -/
def enforceAll (schema : JVal) (data : Doc) :
    Except PyCrash (Doc × List Correction) :=
  match fieldsOf schema with
  | .error e => .error e
  | .ok fields =>
    match enforceLoop data fields [] [] with
    | .error e => .error e
    | .ok (od, cs) => .ok (passThrough od data, cs)

/-! ### The full pipeline (`validate_and_fix`) and `repair_and_write` -/

/-- The data of a Python `json.JSONDecodeError`: message, line, column and
character offset. -/
structure JsonError where
  msg : String
  lineno : Nat
  colno : Nat
  pos : Nat

/-- How a run of `validate_and_fix` ends: normal output of the corrected
document and its corrections report, a `sys.exit(1)` after a printed
diagnostic, or an uncaught exception (also a non-zero interpreter exit). -/
inductive RunOutcome where
  | ok (doc : Doc) (corrections : List Correction)
  | fatalExit
  | crash (e : PyCrash)

/-- A run of `validate_and_fix`: its outcome, the diagnostic lines printed
to stderr (the corrections report of a normal run is kept structured in the
outcome), and the trace of strings handed to `json.loads` and to
`heuristic_repair` for the document. -/
structure VRun where
  outcome : RunOutcome
  stderrLines : List String
  parseCalls : List String
  repairCalls : List String

/-- The process exit code of a run: 0 only when the corrected document was
printed. -/
def VRun.exitCode (r : VRun) : Nat :=
  match r.outcome with
  | .ok _ _ => 0
  | _ => 1

/-- The document emitted on the primary output channel, when any. -/
def VRun.document (r : VRun) : Option Doc :=
  match r.outcome with
  | .ok d _ => some d
  | _ => none

/-- Empty or placeholder input is normalised to an empty document before any
parse attempt (lines 112-113 of the source). -/
def normInput (s : String) : String :=
  if s = "" ∨ pstripStr s = "None" then "\x7b\x7d" else s

/-- Stderr warning printed when the first parse fails. -/
def warnRepairLine : String :=
  "WARNING: Invalid JSON detected. Attempting heuristic repair..."

/-- Stderr note printed when the repaired text parses. -/
def repairSuccessLine : String :=
  "SUCCESS: JSON repaired automatically."

/-- First stderr line of the unrecoverable path. -/
def syntaxFailLine : String :=
  "SYNTAX ERROR: Could not repair JSON."

/-- Enforcement and output generation, shared by the two successful parse
paths. -/
def finishRun (schema : JVal) (data : Doc) (notes : List String)
    (pcs rcs : List String) : VRun :=
  match enforceAll schema data with
  | .error e =>
    { outcome := .crash e, stderrLines := notes, parseCalls := pcs, repairCalls := rcs }
  | .ok (od, cs) =>
    { outcome := .ok od cs, stderrLines := notes, parseCalls := pcs, repairCalls := rcs }

/-- `validate_and_fix` from the source.  The schema file is modelled as
`none` (path does not exist), `some (.error ())` (exists but `json.load`
raises), or `some (.ok v)` (parses to `v`); the strict parser is the
abstract primitive `parse`. -/
def validate_and_fix (parse : String → Except JsonError Doc)
    (schema_path : String) (schemaFile : Option (Except Unit JVal))
    (input_json_str : String) : VRun :=
  match schemaFile with
  | none =>
    { outcome := .fatalExit
      stderrLines := ["CRITICAL ERROR: Schema file not found at " ++ schema_path]
      parseCalls := []
      repairCalls := [] }
  | some (.error _) =>
    { outcome := .fatalExit
      stderrLines := ["CRITICAL ERROR: Schema file at " ++ schema_path ++ " is invalid JSON."]
      parseCalls := []
      repairCalls := [] }
  | some (.ok schema) =>
    let inp := normInput input_json_str
    match parse inp with
    | .ok data => finishRun schema data [] [inp] []
    | .error _ =>
      let repaired := heuristic_repair inp
      match parse repaired with
      | .ok data =>
        finishRun schema data [warnRepairLine, repairSuccessLine] [inp, repaired] [inp]
      | .error e2 =>
        { outcome := .fatalExit
          stderrLines := [warnRepairLine, syntaxFailLine, "DETAILS: " ++ e2.msg]
          parseCalls := [inp, repaired]
          repairCalls := [inp] }

/-- Python slice `s[a:b]` for non-negative bounds (clipped at the ends). -/
def pySlice (s : String) (a b : Nat) : String :=
  String.mk ((s.data.drop a).take (b - a))

/-- A run of `repair_and_write` from
`resilient-config-patcher/scripts/repair_json.py`. -/
structure RRun where
  exitCode : Nat
  stdoutLines : List String
  stderrLines : List String
  written : Option (String × Doc)

/-- `repair_and_write` from the source: parse, write on success, or print
the three-line diagnostic block (message, line/column, and the snippet
`content_str[max(0, e.pos-20):e.pos+20]`) and exit 1.  The Nat subtraction
`e.pos - 20` is exactly Python's `max(0, e.pos - 20)`. -/
def repair_and_write (parse : String → Except JsonError Doc)
    (filepath content_str : String) : RRun :=
  match parse content_str with
  | .ok data =>
    { exitCode := 0
      stdoutLines := ["SUCCESS: Valid JSON saved to " ++ filepath]
      stderrLines := []
      written := some (filepath, data) }
  | .error e =>
    { exitCode := 1
      stdoutLines := []
      stderrLines :=
        ["JSON_ERROR: " ++ e.msg,
         "LOCATION: Line " ++ toString e.lineno ++ ", Column " ++ toString e.colno,
         "SNIPPET: ..." ++ pySlice content_str (e.pos - 20) (e.pos + 20) ++ "..."]
      written := none }

/-! ### Derived vocabulary used by the claims -/

/-- The name a field spec declares, when it is a well-formed spec object. -/
def fieldName : JVal → Option String
  | .obj fobj =>
    match pyLookup fobj "name" with
    | some (.str s) => some s
    | _ => none
  | _ => none

/-- The names declared by a schema's field list, in declaration order. -/
def declNames (fields : List JVal) : List String :=
  fields.filterMap fieldName

/-- The entries the enforcer loop copies for fields present in the
document: one `(name, value)` pair per declared field found in `data`, in
declaration order. -/
def presEntries (data : Doc) (fields : List JVal) : Doc :=
  fields.filterMap (fun f =>
    match fieldName f with
    | some n =>
      match pyLookup data n with
      | some v => some (n, v)
      | none => none
    | none => none)

/-- Boolean membership in a list of names. -/
def nameMem (n : String) : List String → Bool
  | [] => false
  | m :: rest => m = n || nameMem n rest

/-- Conformance of a document to one field spec: a present field declared
integer is already of integer type, and an absent field is neither required
nor defaulted — exactly the condition under which the enforcer records no
correction for the field. -/
def FieldConf (data : Doc) (fobj : List (String × JVal)) (name : String) : Prop :=
  match pyLookup data name with
  | some v =>
    (pyGet fobj "type" (.str "string")).eqStr "integer" = true → ∃ n, v = JVal.int n
  | none =>
    pyTruthy (pyGet fobj "required" (.bool false)) = false ∧
      (pyGet fobj "default" JVal.null).isNull = true

/-- The six declared type tags and their safe empty values, as produced by
`get_safe_default`. -/
def safeDefaultTable : List (String × JVal) :=
  [("string", .str ""), ("integer", .int 0), ("float", .float 0),
   ("boolean", .bool false), ("list", .list []), ("dict", .obj [])]

/-- Does the haystack contain the needle as a contiguous substring? -/
def containsSub (hay needle : String) : Bool :=
  go needle.data hay.data
where
  go (n : List Char) : List Char → Bool
    | [] => n.isEmpty
    | c :: rest => n.isPrefixOf (c :: rest) || go n rest

/-! ### Dictionary lemmas -/

theorem fst_mem_keysOf {d : Doc} {kv : String × JVal} (h : kv ∈ d) :
    kv.1 ∈ keysOf d :=
  List.mem_map_of_mem Prod.fst h

theorem keysOf_cons (k : String) (v : JVal) (d : Doc) :
    keysOf ((k, v) :: d) = k :: keysOf d := rfl

theorem keysOf_append (a b : Doc) : keysOf (a ++ b) = keysOf a ++ keysOf b :=
  List.map_append _ _ _

theorem pyLookup_cons (k' : String) (v : JVal) (rest : Doc) (k : String) :
    pyLookup ((k', v) :: rest) k = if k' = k then some v else pyLookup rest k := rfl

theorem containsKey_cons (k' : String) (v : JVal) (rest : Doc) (k : String) :
    containsKey ((k', v) :: rest) k = (decide (k' = k) || containsKey rest k) := rfl

theorem passThrough_cons (od : Doc) (k : String) (v : JVal) (rest : Doc) :
    passThrough od ((k, v) :: rest) =
      if containsKey od k then passThrough od rest
      else passThrough (od ++ [(k, v)]) rest := rfl

theorem containsKey_iff (d : Doc) (k : String) :
    containsKey d k = true ↔ k ∈ keysOf d := by
  induction d with
  | nil => simp [containsKey, keysOf]
  | cons p rest ih =>
    obtain ⟨k', v⟩ := p
    rw [containsKey_cons, keysOf_cons, Bool.or_eq_true, decide_eq_true_eq, ih,
      List.mem_cons]
    constructor
    · rintro (h | h)
      · exact Or.inl h.symm
      · exact Or.inr h
    · rintro (h | h)
      · exact Or.inl h.symm
      · exact Or.inr h

theorem containsKey_eq_false_iff (d : Doc) (k : String) :
    containsKey d k = false ↔ k ∉ keysOf d := by
  rw [← containsKey_iff]
  cases containsKey d k <;> simp

theorem containsKey_append (a b : Doc) (k : String) :
    containsKey (a ++ b) k = (containsKey a k || containsKey b k) := by
  induction a with
  | nil => simp [containsKey]
  | cons p rest ih =>
    obtain ⟨k', v⟩ := p
    rw [List.cons_append, containsKey_cons, containsKey_cons, ih, Bool.or_assoc]

theorem pyLookup_append (a b : Doc) (k : String) :
    pyLookup (a ++ b) k =
      match pyLookup a k with
      | some v => some v
      | none => pyLookup b k := by
  induction a with
  | nil => rfl
  | cons p rest ih =>
    obtain ⟨k', v⟩ := p
    rw [List.cons_append, pyLookup_cons, pyLookup_cons]
    by_cases h : k' = k
    · rw [if_pos h, if_pos h]
    · rw [if_neg h, if_neg h, ih]

theorem pyLookup_eq_none_iff (d : Doc) (k : String) :
    pyLookup d k = none ↔ k ∉ keysOf d := by
  induction d with
  | nil => simp [pyLookup, keysOf]
  | cons p rest ih =>
    obtain ⟨k', v⟩ := p
    rw [pyLookup_cons, keysOf_cons]
    by_cases h : k' = k
    · subst h
      simp
    · have h' : k ≠ k' := fun he => h he.symm
      simp [h, h', ih]

theorem pyLookup_of_mem_nodup {d : Doc} {kv : String × JVal}
    (hd : (keysOf d).Nodup) (h : kv ∈ d) : pyLookup d kv.1 = some kv.2 := by
  induction d with
  | nil => cases h
  | cons p rest ih =>
    obtain ⟨k', v'⟩ := p
    rw [keysOf_cons] at hd
    have hd' := List.nodup_cons.mp hd
    rcases List.mem_cons.mp h with he | hm
    · subst he
      simp [pyLookup_cons]
    · have hk : ¬ k' = kv.1 := by
        intro he
        exact hd'.1 (he ▸ fst_mem_keysOf hm)
      rw [pyLookup_cons, if_neg hk]
      exact ih hd'.2 hm

theorem dinsert_fresh (d : Doc) (k : String) (v : JVal)
    (h : containsKey d k = false) : dinsert d k v = d ++ [(k, v)] := by
  simp [dinsert, h]

theorem pyLookup_replaceKey_other (d : Doc) (k : String) (v : JVal) (n : String)
    (h : k ≠ n) : pyLookup (replaceKey d k v) n = pyLookup d n := by
  induction d with
  | nil => rfl
  | cons p rest ih =>
    obtain ⟨k', v'⟩ := p
    show pyLookup ((if k' = k then (k, v) else (k', v')) :: replaceKey rest k v) n = _
    by_cases hk : k' = k
    · rw [if_pos hk, pyLookup_cons, pyLookup_cons, if_neg h, if_neg (hk ▸ h), ih]
    · rw [if_neg hk, pyLookup_cons, pyLookup_cons]
      by_cases hn : k' = n
      · rw [if_pos hn, if_pos hn]
      · rw [if_neg hn, if_neg hn, ih]

theorem pyLookup_dinsert_other (d : Doc) (k : String) (v : JVal) (n : String)
    (h : k ≠ n) : pyLookup (dinsert d k v) n = pyLookup d n := by
  unfold dinsert
  split
  · exact pyLookup_replaceKey_other d k v n h
  · rw [pyLookup_append]
    cases hl : pyLookup d n with
    | some w => rfl
    | none => simp [pyLookup_cons, pyLookup, h]

theorem pyLookup_filter_of (d : Doc) (k : String) (p : String × JVal → Bool)
    (h : ∀ kv ∈ d, kv.1 = k → p kv = true) :
    pyLookup (d.filter p) k = pyLookup d k := by
  induction d with
  | nil => rfl
  | cons kv rest ih =>
    obtain ⟨k', v'⟩ := kv
    have ih' := ih fun kv hm he => h kv (List.mem_cons_of_mem _ hm) he
    rw [List.filter_cons]
    by_cases hk : k' = k
    · have hp : p (k', v') = true := h (k', v') (List.mem_cons_self _ _) hk
      rw [if_pos hp, pyLookup_cons, pyLookup_cons, if_pos hk, if_pos hk]
    · by_cases hp : p (k', v') = true
      · rw [if_pos hp, pyLookup_cons, pyLookup_cons, if_neg hk, if_neg hk, ih']
      · rw [if_neg hp, ih', pyLookup_cons, if_neg hk]

theorem pyLookup_filter_none (d : Doc) (k : String) (p : String × JVal → Bool)
    (h : pyLookup d k = none) : pyLookup (d.filter p) k = none := by
  induction d with
  | nil => rfl
  | cons kv rest ih =>
    obtain ⟨k', v'⟩ := kv
    rw [pyLookup_cons] at h
    have hk : ¬ k' = k := by
      intro he
      rw [if_pos he] at h
      cases h
    rw [if_neg hk] at h
    rw [List.filter_cons]
    by_cases hp : p (k', v') = true
    · rw [if_pos hp, pyLookup_cons, if_neg hk, ih h]
    · rw [if_neg hp, ih h]

/-! ### Pass-through lemmas -/

theorem passThrough_suffix (data : Doc) : ∀ od : Doc,
    ∃ s, passThrough od data = od ++ s := by
  induction data with
  | nil => exact fun od => ⟨[], by simp [passThrough]⟩
  | cons kv rest ih =>
    intro od
    obtain ⟨k0, v0⟩ := kv
    rw [passThrough_cons]
    by_cases hc : containsKey od k0 = true
    · rw [if_pos hc]
      exact ih od
    · rw [if_neg hc]
      obtain ⟨s, hs⟩ := ih (od ++ [(k0, v0)])
      exact ⟨(k0, v0) :: s, by simp [hs]⟩

theorem passThrough_eq_filter :
    ∀ data : Doc, (keysOf data).Nodup → ∀ od : Doc,
      passThrough od data = od ++ data.filter (fun kv => !containsKey od kv.1) := by
  intro data
  induction data with
  | nil => intro _ od; simp [passThrough]
  | cons kv rest ih =>
    intro h od
    obtain ⟨k0, v0⟩ := kv
    rw [keysOf_cons] at h
    have hh := List.nodup_cons.mp h
    rw [passThrough_cons, List.filter_cons]
    by_cases hc : containsKey od k0 = true
    · rw [if_pos hc, ih hh.2 od, if_neg (by simp [hc])]
    · have hc' : containsKey od k0 = false := by
        cases hcc : containsKey od k0
        · rfl
        · exact absurd hcc hc
      rw [if_neg hc, ih hh.2 (od ++ [(k0, v0)])]
      have hcong : rest.filter (fun kv' => !containsKey (od ++ [(k0, v0)]) kv'.1) =
          rest.filter (fun kv' => !containsKey od kv'.1) := by
        apply List.filter_congr
        intro kv' hm
        have hne : ¬ k0 = kv'.1 := by
          intro he
          exact hh.1 (he ▸ fst_mem_keysOf hm)
        rw [containsKey_append]
        simp [containsKey, hne]
      rw [hcong, if_pos (by simp [hc'])]
      simp

/-! ### Declared names and present entries -/

theorem filterMapCongr {α β : Type} {f g : α → Option β} :
    ∀ {l : List α}, (∀ a ∈ l, f a = g a) → l.filterMap f = l.filterMap g := by
  intro l
  induction l with
  | nil => intro _; rfl
  | cons a rest ih =>
    intro h
    rw [List.filterMap_cons, List.filterMap_cons, h a (List.mem_cons_self _ _),
      ih fun a ha => h a (List.mem_cons_of_mem _ ha)]

theorem mem_declNames {f : JVal} {fields : List JVal} (hf : f ∈ fields)
    {n : String} (hn : fieldName f = some n) : n ∈ declNames fields :=
  List.mem_filterMap.mpr ⟨f, hf, hn⟩

theorem declNames_cons_of_name {f : JVal} {n : String} (hn : fieldName f = some n)
    (fs : List JVal) : declNames (f :: fs) = n :: declNames fs := by
  unfold declNames
  simp only [List.filterMap_cons, hn]

theorem declNames_cons_none {f : JVal} (hn : fieldName f = none)
    (fs : List JVal) : declNames (f :: fs) = declNames fs := by
  unfold declNames
  simp only [List.filterMap_cons, hn]

theorem presEntries_cons_present {f : JVal} {n : String} {v : JVal}
    (hfn : fieldName f = some n) (data : Doc) (fs : List JVal)
    (hl : pyLookup data n = some v) :
    presEntries data (f :: fs) = (n, v) :: presEntries data fs := by
  unfold presEntries
  simp only [List.filterMap_cons, hfn, hl]

theorem presEntries_cons_absent {f : JVal} {n : String}
    (hfn : fieldName f = some n) (data : Doc) (fs : List JVal)
    (hl : pyLookup data n = none) :
    presEntries data (f :: fs) = presEntries data fs := by
  unfold presEntries
  simp only [List.filterMap_cons, hfn, hl]

theorem presEntries_cons_none {f : JVal} (hfn : fieldName f = none)
    (data : Doc) (fs : List JVal) :
    presEntries data (f :: fs) = presEntries data fs := by
  unfold presEntries
  simp only [List.filterMap_cons, hfn]

theorem keysOf_presEntries_sublist (data : Doc) (fields : List JVal) :
    List.Sublist (keysOf (presEntries data fields)) (declNames fields) := by
  induction fields with
  | nil => exact List.Sublist.refl _
  | cons f fs ih =>
    cases hfn : fieldName f with
    | none =>
      rw [presEntries_cons_none hfn data fs, declNames_cons_none hfn fs]
      exact ih
    | some n =>
      rw [declNames_cons_of_name hfn]
      cases hl : pyLookup data n with
      | some v =>
        rw [presEntries_cons_present hfn data fs hl, keysOf_cons]
        exact List.Sublist.cons₂ n ih
      | none =>
        rw [presEntries_cons_absent hfn data fs hl]
        exact List.Sublist.cons n ih

theorem pyLookup_presEntries (data : Doc) (fields : List JVal) (k : String) :
    pyLookup (presEntries data fields) k =
      if k ∈ declNames fields then pyLookup data k else none := by
  induction fields with
  | nil => simp [presEntries, declNames, pyLookup]
  | cons f fs ih =>
    cases hfn : fieldName f with
    | none =>
      rw [presEntries_cons_none hfn data fs, declNames_cons_none hfn fs, ih]
    | some n =>
      rw [declNames_cons_of_name hfn]
      by_cases hk : n = k
      · subst hk
        cases hl : pyLookup data n with
        | some v =>
          rw [presEntries_cons_present hfn data fs hl, pyLookup_cons, if_pos rfl,
            if_pos (List.mem_cons_self _ _)]
        | none =>
          rw [presEntries_cons_absent hfn data fs hl, ih,
            if_pos (List.mem_cons_self _ _), hl]
          by_cases hm : n ∈ declNames fs
          · rw [if_pos hm]
          · rw [if_neg hm]
      · have hmem : (k ∈ n :: declNames fs) ↔ k ∈ declNames fs := by
          rw [List.mem_cons]
          constructor
          · rintro (h | h)
            · exact absurd h.symm hk
            · exact h
          · exact Or.inr
        cases hl : pyLookup data n with
        | some v =>
          rw [presEntries_cons_present hfn data fs hl, pyLookup_cons, if_neg hk, ih]
          by_cases hm : k ∈ declNames fs
          · rw [if_pos hm, if_pos (hmem.mpr hm)]
          · rw [if_neg hm, if_neg (fun hh => hm (hmem.mp hh))]
        | none =>
          rw [presEntries_cons_absent hfn data fs hl, ih]
          by_cases hm : k ∈ declNames fs
          · rw [if_pos hm, if_pos (hmem.mpr hm)]
          · rw [if_neg hm, if_neg (fun hh => hm (hmem.mp hh))]

/-! ### Enforcer step lemmas -/

theorem enforceStep_obj (data od : Doc) (cs : List Correction)
    (fobj : List (String × JVal)) :
    enforceStep data od cs (JVal.obj fobj) =
      stepCore data od cs (pyLookup fobj "name")
        (pyGet fobj "type" (.str "string"))
        (pyGet fobj "required" (.bool false))
        (pyGet fobj "default" .null) := rfl

theorem enforceLoop_nil (data od : Doc) (cs : List Correction) :
    enforceLoop data [] od cs = .ok (od, cs) := rfl

theorem enforceLoop_cons (data : Doc) (f : JVal) (fs : List JVal)
    (od : Doc) (cs : List Correction) :
    enforceLoop data (f :: fs) od cs =
      match enforceStep data od cs f with
      | .error e => .error e
      | .ok (od', cs') => enforceLoop data fs od' cs' := rfl

theorem enforceStep_named (data od : Doc) (cs : List Correction)
    (fobj : List (String × JVal)) (name : String)
    (hn : pyLookup fobj "name" = some (JVal.str name)) :
    enforceStep data od cs (JVal.obj fobj) =
      stepNamed data od cs name (pyGet fobj "type" (.str "string"))
        (pyGet fobj "required" (.bool false)) (pyGet fobj "default" .null) := by
  rw [enforceStep_obj, hn]
  rfl

theorem enforceStep_conf_present (data od : Doc) (cs : List Correction)
    (fobj : List (String × JVal)) (name : String) (v : JVal)
    (hn : pyLookup fobj "name" = some (JVal.str name))
    (hc : FieldConf data fobj name)
    (hl : pyLookup data name = some v) :
    enforceStep data od cs (JVal.obj fobj) = .ok (dinsert od name v, cs) := by
  rw [enforceStep_named data od cs fobj name hn]
  unfold FieldConf at hc
  simp only [hl] at hc
  unfold stepNamed
  simp only [hl]
  by_cases hty : (pyGet fobj "type" (JVal.str "string")).eqStr "integer" = true
  · obtain ⟨m, rfl⟩ := hc hty
    rw [if_pos hty]
    simp [pyIsInt]
  · rw [if_neg hty]

theorem enforceStep_conf_absent (data od : Doc) (cs : List Correction)
    (fobj : List (String × JVal)) (name : String)
    (hn : pyLookup fobj "name" = some (JVal.str name))
    (hc : FieldConf data fobj name)
    (hl : pyLookup data name = none) :
    enforceStep data od cs (JVal.obj fobj) = .ok (od, cs) := by
  rw [enforceStep_named data od cs fobj name hn]
  unfold FieldConf at hc
  simp only [hl] at hc
  unfold stepNamed
  simp [hl, hc.1, hc.2]

theorem enforceLoop_conf (data : Doc) :
    ∀ (fields : List JVal) (od : Doc) (cs : List Correction),
      (∀ f ∈ fields, ∃ fobj name, f = JVal.obj fobj ∧
          pyLookup fobj "name" = some (JVal.str name) ∧ FieldConf data fobj name) →
      (declNames fields).Nodup →
      (∀ n ∈ declNames fields, containsKey od n = false) →
      enforceLoop data fields od cs = .ok (od ++ presEntries data fields, cs) := by
  intro fields
  induction fields with
  | nil =>
    intro od cs _ _ _
    simp [enforceLoop_nil, presEntries]
  | cons f fs ih =>
    intro od cs hwc hnd hdisj
    obtain ⟨fobj, name, rfl, hn, hc⟩ := hwc _ (List.mem_cons_self _ _)
    have hfn : fieldName (JVal.obj fobj) = some name := by
      simp only [fieldName, hn]
    rw [declNames_cons_of_name hfn fs] at hnd hdisj
    have hnd' := List.nodup_cons.mp hnd
    cases hl : pyLookup data name with
    | none =>
      rw [enforceLoop_cons,
        enforceStep_conf_absent data od cs fobj name hn hc hl]
      show enforceLoop data fs od cs = _
      rw [ih od cs (fun f hf => hwc f (List.mem_cons_of_mem _ hf)) hnd'.2
        (fun n hm => hdisj n (List.mem_cons_of_mem _ hm)),
        presEntries_cons_absent hfn data fs hl]
    | some v =>
      have hfresh : containsKey od name = false := hdisj name (List.mem_cons_self _ _)
      rw [enforceLoop_cons,
        enforceStep_conf_present data od cs fobj name v hn hc hl,
        dinsert_fresh od name v hfresh]
      show enforceLoop data fs (od ++ [(name, v)]) cs = _
      have hdisj' : ∀ n ∈ declNames fs, containsKey (od ++ [(name, v)]) n = false := by
        intro n hm
        rw [containsKey_append]
        have h1 : containsKey od n = false := hdisj n (List.mem_cons_of_mem _ hm)
        have h2 : ¬ name = n := fun he => hnd'.1 (he ▸ hm)
        rw [h1]
        simp [containsKey, h2]
      rw [ih (od ++ [(name, v)]) cs (fun f hf => hwc f (List.mem_cons_of_mem _ hf))
        hnd'.2 hdisj', presEntries_cons_present hfn data fs hl]
      simp

theorem enforceStep_shape (data od : Doc) (cs : List Correction) (f : JVal)
    (od' : Doc) (cs' : List Correction)
    (h : enforceStep data od cs f = .ok (od', cs')) :
    ∃ name, fieldName f = some name ∧
      (∃ newCs, cs' = cs ++ newCs ∧ ∀ c ∈ newCs, c.fieldOf = name) ∧
      (od' = od ∨ ∃ v, od' = dinsert od name v) ∧
      ((pyLookup data name).isSome = true → ∃ v, od' = dinsert od name v) := by
  cases f with
  | str s => exact absurd h (by simp [enforceStep])
  | int n => exact absurd h (by simp [enforceStep])
  | float q => exact absurd h (by simp [enforceStep])
  | bool b => exact absurd h (by simp [enforceStep])
  | null => exact absurd h (by simp [enforceStep])
  | list l => exact absurd h (by simp [enforceStep])
  | obj fobj =>
    cases hn : pyLookup fobj "name" with
    | none =>
      rw [enforceStep_obj, hn] at h
      exact absurd h (by simp [stepCore])
    | some nv =>
      cases nv with
      | str name =>
        have hfn : fieldName (JVal.obj fobj) = some name := by
          simp only [fieldName, hn]
        rw [enforceStep_named data od cs fobj name hn] at h
        unfold stepNamed at h
        refine ⟨name, hfn, ?_⟩
        cases hl : pyLookup data name with
        | none =>
          simp only [hl] at h
          by_cases hcond : (pyTruthy (pyGet fobj "required" (JVal.bool false)) ||
              !(pyGet fobj "default" JVal.null).isNull) = true
          · rw [if_pos hcond] at h
            cases hdv : (if (!(pyGet fobj "default" JVal.null).isNull) = true then
                Except.ok (pyGet fobj "default" JVal.null)
              else getSafeDefaultJ (pyGet fobj "type" (JVal.str "string"))) with
            | error e =>
              rw [hdv] at h
              simp at h
            | ok fv =>
              rw [hdv] at h
              simp only [Except.ok.injEq, Prod.mk.injEq] at h
              obtain ⟨h1, h2⟩ := h
              subst h1
              subst h2
              refine ⟨⟨[_], rfl, ?_⟩, Or.inr ⟨fv, rfl⟩, ?_⟩
              · intro c hcm
                rcases List.mem_singleton.mp hcm with rfl
                rfl
              · intro hs
                simp at hs
          · rw [if_neg hcond] at h
            simp only [Except.ok.injEq, Prod.mk.injEq] at h
            obtain ⟨h1, h2⟩ := h
            subst h1
            subst h2
            refine ⟨⟨[], by simp, by intro c hcm; cases hcm⟩, Or.inl rfl, ?_⟩
            intro hs
            simp at hs
        | some val =>
          simp only [hl] at h
          by_cases hty : (pyGet fobj "type" (JVal.str "string")).eqStr "integer" = true
          · rw [if_pos hty] at h
            by_cases hint : pyIsInt val = true
            · rw [if_pos hint] at h
              simp only [Except.ok.injEq, Prod.mk.injEq] at h
              obtain ⟨h1, h2⟩ := h
              subst h1
              subst h2
              exact ⟨⟨[], by simp, by intro c hcm; cases hcm⟩,
                Or.inr ⟨val, rfl⟩, fun _ => ⟨val, rfl⟩⟩
            · rw [if_neg hint] at h
              cases hco : pyIntCoerce val with
              | some n =>
                rw [hco] at h
                simp only [Except.ok.injEq, Prod.mk.injEq] at h
                obtain ⟨h1, h2⟩ := h
                subst h1
                subst h2
                refine ⟨⟨[_], rfl, ?_⟩, Or.inr ⟨_, rfl⟩, fun _ => ⟨_, rfl⟩⟩
                intro c hcm
                rcases List.mem_singleton.mp hcm with rfl
                rfl
              | none =>
                rw [hco] at h
                simp only [Except.ok.injEq, Prod.mk.injEq] at h
                obtain ⟨h1, h2⟩ := h
                subst h1
                subst h2
                refine ⟨⟨[_], rfl, ?_⟩, Or.inr ⟨_, rfl⟩, fun _ => ⟨_, rfl⟩⟩
                intro c hcm
                rcases List.mem_singleton.mp hcm with rfl
                rfl
          · rw [if_neg hty] at h
            simp only [Except.ok.injEq, Prod.mk.injEq] at h
            obtain ⟨h1, h2⟩ := h
            subst h1
            subst h2
            exact ⟨⟨[], by simp, by intro c hcm; cases hcm⟩,
              Or.inr ⟨val, rfl⟩, fun _ => ⟨val, rfl⟩⟩
      | int n =>
        rw [enforceStep_obj, hn] at h
        exact absurd h (by simp [stepCore])
      | float q =>
        rw [enforceStep_obj, hn] at h
        exact absurd h (by simp [stepCore])
      | bool b =>
        rw [enforceStep_obj, hn] at h
        exact absurd h (by simp [stepCore])
      | null =>
        rw [enforceStep_obj, hn] at h
        exact absurd h (by simp [stepCore])
      | list l =>
        rw [enforceStep_obj, hn] at h
        exact absurd h (by simp [stepCore])
      | obj o =>
        rw [enforceStep_obj, hn] at h
        exact absurd h (by simp [stepCore])

theorem enforceLoop_shape (data : Doc) :
    ∀ (fields : List JVal) (od : Doc) (cs : List Correction)
      (od2 : Doc) (cs2 : List Correction),
      enforceLoop data fields od cs = .ok (od2, cs2) →
      (declNames fields).Nodup →
      (∀ n ∈ declNames fields, containsKey od n = false) →
      ∃ E, od2 = od ++ E ∧ List.Sublist (keysOf E) (declNames fields) ∧
        ∀ n ∈ declNames fields, (pyLookup data n).isSome = true → n ∈ keysOf od2 := by
  intro fields
  induction fields with
  | nil =>
    intro od cs od2 cs2 h _ _
    rw [enforceLoop_nil] at h
    simp only [Except.ok.injEq, Prod.mk.injEq] at h
    obtain ⟨h1, h2⟩ := h
    subst h1
    refine ⟨[], by simp, by simp [declNames, keysOf], ?_⟩
    intro n hm
    simp [declNames] at hm
  | cons g fs ih =>
    intro od cs od2 cs2 h hnd hdisj
    rw [enforceLoop_cons] at h
    cases hstep : enforceStep data od cs g with
    | error e =>
      rw [hstep] at h
      simp at h
    | ok acc =>
      obtain ⟨od1, cs1⟩ := acc
      rw [hstep] at h
      have h' : enforceLoop data fs od1 cs1 = .ok (od2, cs2) := h
      obtain ⟨gname, hgfn, _, hodDisj, hpres⟩ :=
        enforceStep_shape data od cs g od1 cs1 hstep
      rw [declNames_cons_of_name hgfn fs] at hnd hdisj ⊢
      have hnd' := List.nodup_cons.mp hnd
      have hfreshg : containsKey od gname = false :=
        hdisj gname (List.mem_cons_self _ _)
      have hod1 : od1 = od ∨ ∃ v, od1 = od ++ [(gname, v)] := by
        rcases hodDisj with h0 | ⟨v, hv⟩
        · exact Or.inl h0
        · exact Or.inr ⟨v, by rw [hv, dinsert_fresh od gname v hfreshg]⟩
      have hdisj1 : ∀ n ∈ declNames fs, containsKey od1 n = false := by
        intro n hm
        have hne : ¬ gname = n := fun he => hnd'.1 (he ▸ hm)
        rcases hod1 with rfl | ⟨v, rfl⟩
        · exact hdisj n (List.mem_cons_of_mem _ hm)
        · rw [containsKey_append, hdisj n (List.mem_cons_of_mem _ hm)]
          simp [containsKey, hne]
      obtain ⟨E', hE', hsub', hpres'⟩ := ih od1 cs1 od2 cs2 h' hnd'.2 hdisj1
      rcases hod1 with rfl | ⟨v, rfl⟩
      · refine ⟨E', hE', List.Sublist.cons gname hsub', ?_⟩
        intro n hm hs
        rcases List.mem_cons.mp hm with rfl | hm'
        · obtain ⟨w, hw⟩ := hpres hs
          rw [dinsert_fresh _ _ w hfreshg] at hw
          have hlen := congrArg List.length hw
          simp at hlen
        · exact hpres' n hm' hs
      · refine ⟨(gname, v) :: E', by rw [hE']; simp, ?_, ?_⟩
        · rw [show keysOf ((gname, v) :: E') = gname :: keysOf E' from rfl]
          exact List.Sublist.cons₂ gname hsub'
        · intro n hm hs
          rcases List.mem_cons.mp hm with rfl | hm'
          · rw [hE', keysOf_append, keysOf_append]
            exact List.mem_append_left _ (List.mem_append_right _ (by simp [keysOf]))
          · exact hpres' n hm' hs

theorem enforceLoop_preserve (data : Doc) :
    ∀ (fields : List JVal) (od : Doc) (cs : List Correction)
      (od2 : Doc) (cs2 : List Correction) (n : String),
      enforceLoop data fields od cs = .ok (od2, cs2) →
      n ∉ declNames fields →
      pyLookup od2 n = pyLookup od n ∧
        cs2.filter (fun c => c.fieldOf == n) = cs.filter (fun c => c.fieldOf == n) := by
  intro fields
  induction fields with
  | nil =>
    intro od cs od2 cs2 n h _
    rw [enforceLoop_nil] at h
    simp only [Except.ok.injEq, Prod.mk.injEq] at h
    obtain ⟨h1, h2⟩ := h
    subst h1
    subst h2
    exact ⟨rfl, rfl⟩
  | cons g fs ih =>
    intro od cs od2 cs2 n h hnm
    rw [enforceLoop_cons] at h
    cases hstep : enforceStep data od cs g with
    | error e =>
      rw [hstep] at h
      simp at h
    | ok acc =>
      obtain ⟨od1, cs1⟩ := acc
      rw [hstep] at h
      have h' : enforceLoop data fs od1 cs1 = .ok (od2, cs2) := h
      obtain ⟨gname, hgfn, ⟨newCs, hcs, hall⟩, hodDisj, _⟩ :=
        enforceStep_shape data od cs g od1 cs1 hstep
      rw [declNames_cons_of_name hgfn fs] at hnm
      have hgn : ¬ gname = n := fun he => hnm (he ▸ List.mem_cons_self _ _)
      obtain ⟨ih1, ih2⟩ :=
        ih od1 cs1 od2 cs2 n h' (fun hm => hnm (List.mem_cons_of_mem _ hm))
      constructor
      · rw [ih1]
        rcases hodDisj with rfl | ⟨v, rfl⟩
        · rfl
        · exact pyLookup_dinsert_other od gname v n hgn
      · rw [ih2, hcs, List.filter_append]
        have hnil : newCs.filter (fun c => c.fieldOf == n) = [] := by
          rw [List.filter_eq_nil_iff]
          intro c hcm
          have hcf := hall c hcm
          simp [hcf, beq_iff_eq]
          exact hgn
        rw [hnil]
        simp

/-! ### Specialised step lemmas -/

theorem get_safe_default_of_mem {t : String} {v : JVal}
    (h : (t, v) ∈ safeDefaultTable) : get_safe_default t = v := by
  simp [safeDefaultTable] at h
  rcases h with ⟨rfl, rfl⟩ | ⟨rfl, rfl⟩ | ⟨rfl, rfl⟩ | ⟨rfl, rfl⟩ | ⟨rfl, rfl⟩ |
    ⟨rfl, rfl⟩ <;> rfl

theorem safe_ne_null {t : String} {v : JVal}
    (h : (t, v) ∈ safeDefaultTable) : v ≠ JVal.null := by
  simp [safeDefaultTable] at h
  rcases h with ⟨rfl, rfl⟩ | ⟨rfl, rfl⟩ | ⟨rfl, rfl⟩ | ⟨rfl, rfl⟩ | ⟨rfl, rfl⟩ |
    ⟨rfl, rfl⟩ <;> exact fun hh => JVal.noConfusion hh

theorem enforceStep_missing_inject (data od : Doc) (cs : List Correction)
    (fobj : List (String × JVal)) (name t : String) (v : JVal)
    (hn : pyLookup fobj "name" = some (JVal.str name))
    (hreq : pyTruthy (pyGet fobj "required" (JVal.bool false)) = true)
    (hdef : (pyGet fobj "default" JVal.null).isNull = true)
    (hty : pyGet fobj "type" (JVal.str "string") = JVal.str t)
    (hsafe : get_safe_default t = v)
    (hmiss : pyLookup data name = none) :
    enforceStep data od cs (JVal.obj fobj) =
      .ok (dinsert od name v,
        cs ++ [Correction.missingFieldInjected name v (JVal.str t)]) := by
  rw [enforceStep_named data od cs fobj name hn]
  unfold stepNamed
  simp only [hmiss, hreq, hdef, hty]
  simp [getSafeDefaultJ, hsafe]

theorem enforceStep_fallback_zero (data od : Doc) (cs : List Correction)
    (fobj : List (String × JVal)) (name : String) (val : JVal)
    (hn : pyLookup fobj "name" = some (JVal.str name))
    (hty : pyGet fobj "type" (JVal.str "string") = JVal.str "integer")
    (hdef : (pyGet fobj "default" JVal.null).isNull = true)
    (hval : pyLookup data name = some val)
    (hint : pyIsInt val = false)
    (hco : pyIntCoerce val = none) :
    enforceStep data od cs (JVal.obj fobj) =
      .ok (dinsert od name (JVal.int 0),
        cs ++ [Correction.typeCoercionFailedFallback name (JVal.int 0)]) := by
  rw [enforceStep_named data od cs fobj name hn]
  unfold stepNamed
  simp only [hval, hty, hdef, hint, hco]
  simp [JVal.eqStr]

theorem enforceStep_float_trunc (data od : Doc) (cs : List Correction)
    (fobj : List (String × JVal)) (name : String) (q : Rat)
    (hn : pyLookup fobj "name" = some (JVal.str name))
    (hty : pyGet fobj "type" (JVal.str "string") = JVal.str "integer")
    (hval : pyLookup data name = some (JVal.float q)) :
    enforceStep data od cs (JVal.obj fobj) =
      .ok (dinsert od name (JVal.int (ratTrunc q)),
        cs ++ [Correction.typeCoerced name]) := by
  rw [enforceStep_named data od cs fobj name hn]
  unfold stepNamed
  simp only [hval, hty]
  simp [JVal.eqStr, pyIsInt, pyIntCoerce]

theorem enforceStep_strCoerce_inv (data od : Doc) (cs : List Correction)
    (fobj : List (String × JVal)) (name s : String)
    (od2 : Doc)
    (hn : pyLookup fobj "name" = some (JVal.str name))
    (hval : pyLookup data name = some (JVal.str s))
    (h : enforceStep data od cs (JVal.obj fobj) =
      .ok (od2, cs ++ [Correction.typeCoerced name])) :
    ∃ n, pyIntOfString s = some n ∧ od2 = dinsert od name (JVal.int n) := by
  rw [enforceStep_named data od cs fobj name hn] at h
  unfold stepNamed at h
  simp only [hval] at h
  by_cases hty : (pyGet fobj "type" (JVal.str "string")).eqStr "integer" = true
  · rw [if_pos hty] at h
    rw [show pyIsInt (JVal.str s) = false from rfl] at h
    rw [show pyIntCoerce (JVal.str s) = pyIntOfString s from rfl] at h
    cases hio : pyIntOfString s with
    | some n =>
      rw [hio] at h
      simp at h
      exact ⟨n, rfl, h.symm⟩
    | none =>
      rw [hio] at h
      simp at h
  · rw [if_neg hty] at h
    simp at h

theorem enforceLoop_tracked (data : Doc) (fobj : List (String × JVal))
    (name : String) (fv dt : JVal)
    (hstep : ∀ od cs, containsKey od name = false →
      enforceStep data od cs (JVal.obj fobj) =
        .ok (od ++ [(name, fv)],
          cs ++ [Correction.missingFieldInjected name fv dt]))
    (hfn : fieldName (JVal.obj fobj) = some name) :
    ∀ (fields : List JVal) (od : Doc) (cs : List Correction)
      (od2 : Doc) (cs2 : List Correction),
      enforceLoop data fields od cs = .ok (od2, cs2) →
      (declNames fields).Nodup →
      (∀ n ∈ declNames fields, containsKey od n = false) →
      JVal.obj fobj ∈ fields →
      cs.filter (fun c => c.fieldOf == name) = [] →
      pyLookup od2 name = some fv ∧
        cs2.filter (fun c => c.fieldOf == name) =
          [Correction.missingFieldInjected name fv dt] := by
  intro fields
  induction fields with
  | nil =>
    intro od cs od2 cs2 h _ _ hmem _
    cases hmem
  | cons g fs ih =>
    intro od cs od2 cs2 h hnd hdisj hmem hcs0
    rw [enforceLoop_cons] at h
    rcases List.mem_cons.mp hmem with rfl | hmem2
    · have hfresh : containsKey od name = false := by
        apply hdisj
        rw [declNames_cons_of_name hfn fs]
        exact List.mem_cons_self _ _
      rw [hstep od cs hfresh] at h
      have h' : enforceLoop data fs (od ++ [(name, fv)])
          (cs ++ [Correction.missingFieldInjected name fv dt]) =
          .ok (od2, cs2) := h
      rw [declNames_cons_of_name hfn fs] at hnd
      have hnd' := List.nodup_cons.mp hnd
      obtain ⟨p1, p2⟩ := enforceLoop_preserve data fs (od ++ [(name, fv)])
        (cs ++ [Correction.missingFieldInjected name fv dt]) od2 cs2 name h' hnd'.1
      constructor
      · rw [p1, pyLookup_append]
        have hnone : pyLookup od name = none :=
          (pyLookup_eq_none_iff od name).mpr
            ((containsKey_eq_false_iff od name).mp hfresh)
        rw [hnone]
        simp [pyLookup_cons]
      · rw [p2, List.filter_append, hcs0]
        simp [Correction.fieldOf]
    · cases hstep2 : enforceStep data od cs g with
      | error e =>
        rw [hstep2] at h
        simp at h
      | ok acc =>
        obtain ⟨od1, cs1⟩ := acc
        rw [hstep2] at h
        have h' : enforceLoop data fs od1 cs1 = .ok (od2, cs2) := h
        obtain ⟨gname, hgfn, ⟨newCs, hcs, hall⟩, hodDisj, _⟩ :=
          enforceStep_shape data od cs g od1 cs1 hstep2
        rw [declNames_cons_of_name hgfn fs] at hnd hdisj
        have hnd' := List.nodup_cons.mp hnd
        have hnameFs : name ∈ declNames fs := mem_declNames hmem2 hfn
        have hgname : ¬ gname = name := fun he => hnd'.1 (he ▸ hnameFs)
        have hfreshg : containsKey od gname = false :=
          hdisj gname (List.mem_cons_self _ _)
        have hdisj1 : ∀ n ∈ declNames fs, containsKey od1 n = false := by
          intro n hm
          have hne : ¬ gname = n := fun he => hnd'.1 (he ▸ hm)
          rcases hodDisj with rfl | ⟨v, hv⟩
          · exact hdisj n (List.mem_cons_of_mem _ hm)
          · rw [hv, dinsert_fresh od gname v hfreshg, containsKey_append,
              hdisj n (List.mem_cons_of_mem _ hm)]
            simp [containsKey, hne]
        have hcs1 : cs1.filter (fun c => c.fieldOf == name) = [] := by
          rw [hcs, List.filter_append, hcs0]
          simp only [List.nil_append]
          rw [List.filter_eq_nil_iff]
          intro c hcm
          have hcf := hall c hcm
          simp [hcf, beq_iff_eq]
          exact hgname
        exact ih od1 cs1 od2 cs2 h' hnd'.2 hdisj1 hmem2 hcs1

/-! ### The claims -/

/-- C9: applying repair to the input string `{"a": 1` yields exactly
`{"a": 1}` — the missing closing brace is appended at the end by the
bracket/brace balancing step, and no other heuristic alters the text. -/
theorem claim_C9 : heuristic_repair "\x7b\"a\": 1" = "\x7b\"a\": 1\x7d" := rfl

/-- C7: under a schema whose single field spec is
`{name: "port", type: "integer", default: 8080}`, enforcing the document
`{"port": "8080"}` yields `{"port": 8080}` with exactly one TypeCoerced
correction, and enforcing `{}` yields `{"port": 8080}` with exactly one
MissingFieldInjected correction. -/
theorem claim_C7 :
    enforceAll
        (JVal.obj [("fields", JVal.list [JVal.obj
          [("name", JVal.str "port"), ("type", JVal.str "integer"),
           ("default", JVal.int 8080)]])])
        [("port", JVal.str "8080")] =
      .ok ([("port", JVal.int 8080)], [Correction.typeCoerced "port"]) ∧
    enforceAll
        (JVal.obj [("fields", JVal.list [JVal.obj
          [("name", JVal.str "port"), ("type", JVal.str "integer"),
           ("default", JVal.int 8080)]])])
        [] =
      .ok ([("port", JVal.int 8080)],
        [Correction.missingFieldInjected "port" (JVal.int 8080)
          (JVal.str "integer")]) :=
  ⟨rfl, rfl⟩

/-- C3 counterexample: with field `x` declared integer and document
`{"x": 3.5}` (the rational 7/2), enforcement outputs `x = 3` and records
TypeCoerced, yet 7/2 is not the integer 3 — a lossy coercion succeeded with
TypeCoerced, refuting the claim that only lossless coercions do. -/
theorem claim_C3_counterexample :
    enforceAll
        (JVal.obj [("fields", JVal.list [JVal.obj
          [("name", JVal.str "x"), ("type", JVal.str "integer")]])])
        [("x", JVal.float (mkRat 7 2))] =
      .ok ([("x", JVal.int 3)], [Correction.typeCoerced "x"]) ∧
    mkRat 7 2 ≠ ((3 : Int) : Rat) :=
  ⟨rfl, by decide⟩

/-- C3 (amended): for a field declared integer that is present in the
document, a TypeCoerced correction on a string value means the string reads
exactly as the coerced integer (lossless, Python `int(str)`), while a float
value is truncated toward zero and still recorded as TypeCoerced even when
the fractional part is lost. -/
theorem claim_C3_theorem
    (data od : Doc) (cs : List Correction) (fobj : List (String × JVal))
    (name : String)
    (hn : pyLookup fobj "name" = some (JVal.str name))
    (hty : pyGet fobj "type" (JVal.str "string") = JVal.str "integer") :
    (∀ (s : String) (od2 : Doc),
      pyLookup data name = some (JVal.str s) →
      enforceStep data od cs (JVal.obj fobj) =
        .ok (od2, cs ++ [Correction.typeCoerced name]) →
      ∃ n, pyIntOfString s = some n ∧ od2 = dinsert od name (JVal.int n)) ∧
    (∀ q : Rat, pyLookup data name = some (JVal.float q) →
      enforceStep data od cs (JVal.obj fobj) =
        .ok (dinsert od name (JVal.int (ratTrunc q)),
          cs ++ [Correction.typeCoerced name])) := by
  constructor
  · intro s od2 hval h
    exact enforceStep_strCoerce_inv data od cs fobj name s od2 hn hval h
  · intro q hval
    exact enforceStep_float_trunc data od cs fobj name q hn hty hval

/-- C3 witness: the amended theorem applied to the concrete document
`{"x": "8080"}` under the field spec `{name: "x", type: "integer"}`. -/
theorem claim_C3_witness :
    ∃ n, pyIntOfString "8080" = some n ∧
      [("x", JVal.int 8080)] = dinsert [] "x" (JVal.int n) :=
  (claim_C3_theorem [("x", JVal.str "8080")] [] []
      [("name", JVal.str "x"), ("type", JVal.str "integer")] "x" rfl rfl).1
    "8080" [("x", JVal.int 8080)] rfl rfl

/-- C10: a field spec with an explicit `default: null` is treated exactly
as if it had no default entry at all (Python `field.get('default', None)`
cannot distinguish them): the enforcer behaves identically on the spec with
the default entry removed; a required missing field receives the safe empty
value of its type, never null; and a failed integer coercion falls back to
0, not null. -/
theorem claim_C10 (data od : Doc) (cs : List Correction)
    (fobj : List (String × JVal))
    (hdef : pyLookup fobj "default" = some JVal.null) :
    enforceStep data od cs (JVal.obj fobj) =
      enforceStep data od cs
        (JVal.obj (fobj.filter (fun p => !(p.1 == "default")))) ∧
    (∀ name t v, pyLookup fobj "name" = some (JVal.str name) →
      pyGet fobj "required" (JVal.bool false) = JVal.bool true →
      pyGet fobj "type" (JVal.str "string") = JVal.str t →
      (t, v) ∈ safeDefaultTable →
      pyLookup data name = none →
      enforceStep data od cs (JVal.obj fobj) =
        .ok (dinsert od name v,
          cs ++ [Correction.missingFieldInjected name v (JVal.str t)]) ∧
        v ≠ JVal.null) ∧
    (∀ name val, pyLookup fobj "name" = some (JVal.str name) →
      pyGet fobj "type" (JVal.str "string") = JVal.str "integer" →
      pyLookup data name = some val →
      pyIsInt val = false → pyIntCoerce val = none →
      enforceStep data od cs (JVal.obj fobj) =
        .ok (dinsert od name (JVal.int 0),
          cs ++ [Correction.typeCoercionFailedFallback name (JVal.int 0)])) := by
  have hdefIsNull : (pyGet fobj "default" JVal.null).isNull = true := by
    unfold pyGet
    rw [hdef]
    rfl
  have gl : ∀ k, ¬ k = "default" →
      pyLookup (fobj.filter (fun p => !(p.1 == "default"))) k = pyLookup fobj k := by
    intro k hk
    apply pyLookup_filter_of
    intro kv _ he
    rw [he]
    cases hbe : (k == "default") with
    | false => rfl
    | true => exact absurd (beq_iff_eq.mp hbe) hk
  refine ⟨?_, ?_, ?_⟩
  · have e4 : pyLookup (fobj.filter (fun p => !(p.1 == "default"))) "default" =
        none := by
      rw [pyLookup_eq_none_iff]
      intro hmem
      obtain ⟨kv, hkv, hfst⟩ := List.mem_map.mp hmem
      have h2 := (List.mem_filter.mp hkv).2
      rw [hfst] at h2
      simp at h2
    have d1 : pyGet fobj "default" JVal.null = JVal.null := by
      unfold pyGet
      rw [hdef]
      rfl
    have d2 : pyGet (fobj.filter (fun p => !(p.1 == "default"))) "default"
        JVal.null = JVal.null := by
      unfold pyGet
      rw [e4]
      rfl
    have t1 : pyGet (fobj.filter (fun p => !(p.1 == "default"))) "type"
        (JVal.str "string") = pyGet fobj "type" (JVal.str "string") := by
      unfold pyGet
      rw [gl "type" (by decide)]
    have r1 : pyGet (fobj.filter (fun p => !(p.1 == "default"))) "required"
        (JVal.bool false) = pyGet fobj "required" (JVal.bool false) := by
      unfold pyGet
      rw [gl "required" (by decide)]
    rw [enforceStep_obj, enforceStep_obj, gl "name" (by decide), t1, r1, d1, d2]
  · intro name t v hn hreq hty hsafe hmiss
    refine ⟨?_, safe_ne_null hsafe⟩
    exact enforceStep_missing_inject data od cs fobj name t v hn
      (by rw [hreq]; rfl) hdefIsNull hty (get_safe_default_of_mem hsafe) hmiss
  · intro name val hn hty hval hint hco
    exact enforceStep_fallback_zero data od cs fobj name val hn hty hdefIsNull
      hval hint hco

/-- C10 witness: the theorem applied to the concrete field spec
`{name: "x", required: true, type: "integer", default: null}` and the empty
document. -/
theorem claim_C10_witness :
    enforceStep [] [] [] (JVal.obj [("name", JVal.str "x"),
        ("required", JVal.bool true), ("type", JVal.str "integer"),
        ("default", JVal.null)]) =
      .ok (dinsert [] "x" (JVal.int 0),
        [] ++ [Correction.missingFieldInjected "x" (JVal.int 0)
          (JVal.str "integer")]) ∧
    JVal.int 0 ≠ JVal.null :=
  (claim_C10 [] [] [] [("name", JVal.str "x"), ("required", JVal.bool true),
      ("type", JVal.str "integer"), ("default", JVal.null)] rfl).2.1
    "x" "integer" (JVal.int 0) rfl rfl rfl
    (List.mem_cons_of_mem _ (List.mem_cons_self _ _)) rfl

theorem nameMem_iff (n : String) (l : List String) :
    nameMem n l = true ↔ n ∈ l := by
  induction l with
  | nil => simp [nameMem]
  | cons m rest ih =>
    show (decide (m = n) || nameMem n rest) = true ↔ _
    rw [Bool.or_eq_true, decide_eq_true_eq, ih, List.mem_cons]
    constructor
    · rintro (h | h)
      · exact Or.inl h.symm
      · exact Or.inr h
    · rintro (h | h)
      · exact Or.inl h.symm
      · exact Or.inr h

theorem nameMem_eq_false_iff (n : String) (l : List String) :
    nameMem n l = false ↔ n ∉ l := by
  rw [← nameMem_iff]
  cases nameMem n l <;> simp

/-- C6: for every field spec with `required: true` and no default entry,
declared with one of the six type tags, enforcing a document missing that
field (under a well-formed schema with unique names, when the run succeeds)
injects the type-appropriate safe empty value and records exactly one
MissingFieldInjected correction for that field. -/
theorem claim_C6 (schema : JVal) (data : Doc) (fields : List JVal)
    (fobj : List (String × JVal)) (name t : String) (v : JVal)
    (O : Doc) (cs : List Correction)
    (hf : fieldsOf schema = .ok fields)
    (hmem : JVal.obj fobj ∈ fields)
    (hn : pyLookup fobj "name" = some (JVal.str name))
    (hreq : pyGet fobj "required" (JVal.bool false) = JVal.bool true)
    (hdef : pyGet fobj "default" JVal.null = JVal.null)
    (hty : pyGet fobj "type" (JVal.str "string") = JVal.str t)
    (hsafe : (t, v) ∈ safeDefaultTable)
    (hmiss : pyLookup data name = none)
    (hnd : (declNames fields).Nodup)
    (h : enforceAll schema data = .ok (O, cs)) :
    pyLookup O name = some v ∧
      cs.filter (fun c => c.fieldOf == name) =
        [Correction.missingFieldInjected name v (JVal.str t)] := by
  have h0 : (match enforceLoop data fields [] [] with
      | .error e => Except.error e
      | .ok (od, cs0) => Except.ok (passThrough od data, cs0)) =
      Except.ok (O, cs) := by
    rw [← h]
    unfold enforceAll
    rw [hf]
  cases hloop : enforceLoop data fields [] [] with
  | error e =>
    rw [hloop] at h0
    simp at h0
  | ok acc =>
    obtain ⟨od, cs0⟩ := acc
    rw [hloop] at h0
    have h1 : (Except.ok (passThrough od data, cs0) :
        Except PyCrash (Doc × List Correction)) = Except.ok (O, cs) := h0
    simp only [Except.ok.injEq, Prod.mk.injEq] at h1
    obtain ⟨hO, hcs⟩ := h1
    have hstep : ∀ od1 cs1, containsKey od1 name = false →
        enforceStep data od1 cs1 (JVal.obj fobj) =
          .ok (od1 ++ [(name, v)],
            cs1 ++ [Correction.missingFieldInjected name v (JVal.str t)]) := by
      intro od1 cs1 hfr
      rw [enforceStep_missing_inject data od1 cs1 fobj name t v hn
        (by rw [hreq]; rfl) (by rw [hdef]; rfl) hty
        (get_safe_default_of_mem hsafe) hmiss,
        dinsert_fresh od1 name v hfr]
    obtain ⟨hl1, hl2⟩ := enforceLoop_tracked data fobj name v (JVal.str t) hstep
      (by simp only [fieldName, hn]) fields [] [] od cs0 hloop hnd
      (fun n _ => rfl) hmem rfl
    constructor
    · rw [← hO]
      obtain ⟨sfx, hsfx⟩ := passThrough_suffix data od
      rw [hsfx, pyLookup_append, hl1]
    · rw [← hcs]
      exact hl2

/-- C6 witness: schema `{fields: [{name: "u", required: true,
type: "string"}]}` on document `{"z": 5}` injects `u = ""` with exactly one
MissingFieldInjected correction. -/
theorem claim_C6_witness :
    pyLookup [("u", JVal.str ""), ("z", JVal.int 5)] "u" =
      some (JVal.str "") ∧
    ([Correction.missingFieldInjected "u" (JVal.str "") (JVal.str "string")].filter
      (fun c => c.fieldOf == "u")) =
      [Correction.missingFieldInjected "u" (JVal.str "") (JVal.str "string")] :=
  claim_C6
    (JVal.obj [("fields", JVal.list [JVal.obj [("name", JVal.str "u"),
      ("required", JVal.bool true), ("type", JVal.str "string")]])])
    [("z", JVal.int 5)]
    [JVal.obj [("name", JVal.str "u"), ("required", JVal.bool true),
      ("type", JVal.str "string")]]
    [("name", JVal.str "u"), ("required", JVal.bool true),
      ("type", JVal.str "string")]
    "u" "string" (JVal.str "")
    [("u", JVal.str ""), ("z", JVal.int 5)]
    [Correction.missingFieldInjected "u" (JVal.str "") (JVal.str "string")]
    rfl (List.mem_cons_self _ _) rfl rfl rfl rfl
    (List.mem_cons_self _ _) rfl (by decide) rfl

/-- C8: for every schema and successfully enforced document (well-formed
field list, unique declared names, unique document keys), the output is a
block of schema-declared fields, in schema declaration order, followed by
exactly the undeclared fields of the input in their original relative
order; every undeclared input key appears in the output with its value
unchanged. -/
theorem claim_C8 (schema : JVal) (data : Doc) (fields : List JVal)
    (O : Doc) (cs : List Correction)
    (hf : fieldsOf schema = .ok fields)
    (hnd : (declNames fields).Nodup)
    (hD : (keysOf data).Nodup)
    (h : enforceAll schema data = .ok (O, cs)) :
    ∃ F, O = F ++ data.filter (fun kv => !nameMem kv.1 (declNames fields)) ∧
      List.Sublist (keysOf F) (declNames fields) ∧
      ∀ kv ∈ data, nameMem kv.1 (declNames fields) = false →
        pyLookup O kv.1 = some kv.2 := by
  have h0 : (match enforceLoop data fields [] [] with
      | .error e => Except.error e
      | .ok (od, cs0) => Except.ok (passThrough od data, cs0)) =
      Except.ok (O, cs) := by
    rw [← h]
    unfold enforceAll
    rw [hf]
  cases hloop : enforceLoop data fields [] [] with
  | error e =>
    rw [hloop] at h0
    simp at h0
  | ok acc =>
    obtain ⟨od, cs0⟩ := acc
    rw [hloop] at h0
    have h1 : (Except.ok (passThrough od data, cs0) :
        Except PyCrash (Doc × List Correction)) = Except.ok (O, cs) := h0
    simp only [Except.ok.injEq, Prod.mk.injEq] at h1
    obtain ⟨hO, hcs⟩ := h1
    obtain ⟨E, hE, hsub, hpres⟩ :=
      enforceLoop_shape data fields [] [] od cs0 hloop hnd (fun n _ => rfl)
    rw [List.nil_append] at hE
    subst hE
    have hPT := passThrough_eq_filter data hD od
    have hkeysub : ∀ k, k ∈ keysOf od → k ∈ declNames fields :=
      fun k hk => hsub.subset hk
    have hfiltereq : data.filter (fun kv => !containsKey od kv.1) =
        data.filter (fun kv => !nameMem kv.1 (declNames fields)) := by
      apply List.filter_congr
      intro kv hkv
      by_cases hc : kv.1 ∈ declNames fields
      · have hs : (pyLookup data kv.1).isSome = true := by
          rw [pyLookup_of_mem_nodup hD hkv]
          rfl
        have hin : kv.1 ∈ keysOf od := hpres kv.1 hc hs
        rw [(containsKey_iff od kv.1).mpr hin, (nameMem_iff kv.1 _).mpr hc]
      · have hc1 : containsKey od kv.1 = false :=
          (containsKey_eq_false_iff od kv.1).mpr (fun hh => hc (hkeysub _ hh))
        have hc2 : nameMem kv.1 (declNames fields) = false :=
          (nameMem_eq_false_iff kv.1 _).mpr hc
        rw [hc1, hc2]
    refine ⟨od, ?_, hsub, ?_⟩
    · rw [← hO, hPT, hfiltereq]
    · intro kv hkv hnm
      have hknotdecl : kv.1 ∉ declNames fields :=
        (nameMem_eq_false_iff kv.1 _).mp hnm
      have hknotod : containsKey od kv.1 = false :=
        (containsKey_eq_false_iff od kv.1).mpr
          (fun hh => hknotdecl (hkeysub _ hh))
      rw [← hO, hPT, pyLookup_append,
        (pyLookup_eq_none_iff od kv.1).mpr
          ((containsKey_eq_false_iff od kv.1).mp hknotod)]
      have hflt : pyLookup (data.filter (fun kv => !containsKey od kv.1)) kv.1 =
          pyLookup data kv.1 := by
        apply pyLookup_filter_of
        intro kv2 _ he2
        rw [he2, hknotod]
        rfl
      rw [hflt, pyLookup_of_mem_nodup hD hkv]

/-- C8 witness: schema declaring only `a` on document
`{"z": "keep", "a": 1}` yields `a` first and passes `z` through unchanged. -/
theorem claim_C8_witness :
    ∃ F, ([("a", JVal.int 1), ("z", JVal.str "keep")] : Doc) =
        F ++ ([("z", JVal.str "keep"), ("a", JVal.int 1)] : Doc).filter
          (fun kv => !nameMem kv.1 (declNames [JVal.obj
            [("name", JVal.str "a"), ("type", JVal.str "integer")]])) ∧
      List.Sublist (keysOf F)
        (declNames [JVal.obj [("name", JVal.str "a"),
          ("type", JVal.str "integer")]]) ∧
      ∀ kv ∈ ([("z", JVal.str "keep"), ("a", JVal.int 1)] : Doc),
        nameMem kv.1 (declNames [JVal.obj [("name", JVal.str "a"),
          ("type", JVal.str "integer")]]) = false →
        pyLookup [("a", JVal.int 1), ("z", JVal.str "keep")] kv.1 =
          some kv.2 :=
  claim_C8
    (JVal.obj [("fields", JVal.list [JVal.obj [("name", JVal.str "a"),
      ("type", JVal.str "integer")]])])
    [("z", JVal.str "keep"), ("a", JVal.int 1)]
    [JVal.obj [("name", JVal.str "a"), ("type", JVal.str "integer")]]
    [("a", JVal.int 1), ("z", JVal.str "keep")] []
    rfl (by decide) (by decide) rfl

/-- C4: for every well-formed schema with unique field names and every
document (with unique keys) already conformant to it, enforcement is
idempotent: both the first and the second application return the same
output document, and the correction sequence of the second application is
empty. -/
theorem claim_C4 (schema : JVal) (data : Doc) (fields : List JVal)
    (hf : fieldsOf schema = .ok fields)
    (hwc : ∀ f ∈ fields, ∃ fobj name, f = JVal.obj fobj ∧
        pyLookup fobj "name" = some (JVal.str name) ∧ FieldConf data fobj name)
    (hnd : (declNames fields).Nodup)
    (hD : (keysOf data).Nodup) :
    ∃ O, enforceAll schema data = .ok (O, []) ∧
      enforceAll schema O = .ok (O, []) := by
  have hloop1 : enforceLoop data fields [] [] =
      .ok (presEntries data fields, []) := by
    have hc := enforceLoop_conf data fields [] [] hwc hnd (fun n _ => rfl)
    simpa using hc
  set P := presEntries data fields with hP
  set R := data.filter (fun kv => !containsKey P kv.1) with hR
  have hPT : passThrough P data = P ++ R := passThrough_eq_filter data hD P
  have hrun1 : enforceAll schema data = .ok (P ++ R, []) := by
    have h0 : enforceAll schema data = (match enforceLoop data fields [] [] with
      | .error e => Except.error e
      | .ok (od, cs0) => Except.ok (passThrough od data, cs0)) := by
      unfold enforceAll
      rw [hf]
    rw [h0, hloop1]
    show Except.ok (passThrough P data, []) = _
    rw [hPT]
  have hlook : ∀ n ∈ declNames fields, pyLookup (P ++ R) n = pyLookup data n := by
    intro n hn
    rw [pyLookup_append, hP, pyLookup_presEntries data fields n, if_pos hn]
    cases hl : pyLookup data n with
    | some v => rfl
    | none =>
      show pyLookup R n = none
      rw [hR]
      exact pyLookup_filter_none data n _ hl
  have hwc2 : ∀ f ∈ fields, ∃ fobj name, f = JVal.obj fobj ∧
      pyLookup fobj "name" = some (JVal.str name) ∧
      FieldConf (P ++ R) fobj name := by
    intro f hfm
    obtain ⟨fobj, name, rfl, hn, hc⟩ := hwc f hfm
    refine ⟨fobj, name, rfl, hn, ?_⟩
    have hnd2 : name ∈ declNames fields :=
      mem_declNames hfm (by simp only [fieldName, hn])
    unfold FieldConf at hc ⊢
    rw [hlook name hnd2]
    exact hc
  have hP2 : presEntries (P ++ R) fields = P := by
    conv_rhs => rw [hP]
    unfold presEntries
    apply filterMapCongr
    intro f hfm
    cases hfn : fieldName f with
    | none => simp only [hfn]
    | some n =>
      simp only [hfn]
      rw [hlook n (mem_declNames hfm hfn)]
  have hloop2 : enforceLoop (P ++ R) fields [] [] = .ok (P, []) := by
    have hc := enforceLoop_conf (P ++ R) fields [] [] hwc2 hnd (fun n _ => rfl)
    rw [hP2] at hc
    simpa using hc
  have hkP : (keysOf P).Nodup :=
    List.Nodup.sublist (keysOf_presEntries_sublist data fields) hnd
  have hkR : (keysOf R).Nodup :=
    List.Nodup.sublist (List.Sublist.map Prod.fst (List.filter_sublist data)) hD
  have hdisjPR : ∀ a ∈ keysOf P, a ∉ keysOf R := by
    intro a haP haR
    obtain ⟨kv, hkvR, hfst⟩ := List.mem_map.mp haR
    rw [hR] at hkvR
    have h2 := (List.mem_filter.mp hkvR).2
    rw [hfst] at h2
    rw [(containsKey_iff P a).mpr haP] at h2
    simp at h2
  have hONodup : (keysOf (P ++ R)).Nodup := by
    rw [keysOf_append, List.nodup_append]
    exact ⟨hkP, hkR, fun a ha hb => hdisjPR a ha hb⟩
  have hPTO : passThrough P (P ++ R) = P ++ R := by
    rw [passThrough_eq_filter (P ++ R) hONodup P, List.filter_append]
    have e1 : P.filter (fun kv => !containsKey P kv.1) = [] := by
      rw [List.filter_eq_nil_iff]
      intro kv hkv
      rw [(containsKey_iff P kv.1).mpr (fst_mem_keysOf hkv)]
      simp
    have e2 : R.filter (fun kv => !containsKey P kv.1) = R := by
      rw [List.filter_eq_self]
      intro kv hkv
      rw [hR] at hkv
      exact (List.mem_filter.mp hkv).2
    rw [e1, e2, List.nil_append]
  have hrun2 : enforceAll schema (P ++ R) = .ok (P ++ R, []) := by
    have h0 : enforceAll schema (P ++ R) =
        (match enforceLoop (P ++ R) fields [] [] with
        | .error e => Except.error e
        | .ok (od, cs0) => Except.ok (passThrough od (P ++ R), cs0)) := by
      unfold enforceAll
      rw [hf]
    rw [h0, hloop2]
    show Except.ok (passThrough P (P ++ R), []) = _
    rw [hPTO]
  exact ⟨P ++ R, hrun1, hrun2⟩

/-- C4 witness: the idempotence theorem applied to the schema declaring
integer `port` and the conformant document `{"port": 1, "extra": "y"}`. -/
theorem claim_C4_witness :
    ∃ O, enforceAll (JVal.obj [("fields", JVal.list [JVal.obj
        [("name", JVal.str "port"), ("type", JVal.str "integer")]])])
        [("port", JVal.int 1), ("extra", JVal.str "y")] = .ok (O, []) ∧
      enforceAll (JVal.obj [("fields", JVal.list [JVal.obj
        [("name", JVal.str "port"), ("type", JVal.str "integer")]])])
        O = .ok (O, []) :=
  claim_C4
    (JVal.obj [("fields", JVal.list [JVal.obj
      [("name", JVal.str "port"), ("type", JVal.str "integer")]])])
    [("port", JVal.int 1), ("extra", JVal.str "y")]
    [JVal.obj [("name", JVal.str "port"), ("type", JVal.str "integer")]]
    rfl
    (by
      intro f hf
      rw [List.mem_singleton] at hf
      subst hf
      exact ⟨[("name", JVal.str "port"), ("type", JVal.str "integer")],
        "port", rfl, rfl, fun _ => ⟨1, rfl⟩⟩)
    (by decide) (by decide)

theorem finishRun_calls (schema : JVal) (data : Doc) (notes : List String)
    (pcs rcs : List String) :
    (finishRun schema data notes pcs rcs).parseCalls = pcs ∧
    (finishRun schema data notes pcs rcs).repairCalls = rcs ∧
    (finishRun schema data notes pcs rcs).stderrLines = notes := by
  unfold finishRun
  cases h : enforceAll schema data with
  | error e => exact ⟨rfl, rfl, rfl⟩
  | ok acc =>
    obtain ⟨od, cs⟩ := acc
    exact ⟨rfl, rfl, rfl⟩

/-- C5: the two-attempt policy.  For non-placeholder input under a loaded
schema: a successful first parse means exactly one parse call and no repair
call; a failed first parse is followed by exactly one repair invocation and
one parse of the repaired text; a second failure terminates fatally (exit
code 1) with the second attempt's error message, and no further repair or
parse attempt is made (the call traces are exactly two parses and one
repair). -/
theorem claim_C5 (parse : String → Except JsonError Doc)
    (schema_path : String) (schema : JVal) (input : String)
    (h0 : ¬ input = "") (h1 : ¬ pstripStr input = "None") :
    (∀ data, parse input = .ok data →
      (validate_and_fix parse schema_path (some (.ok schema)) input).parseCalls =
        [input] ∧
      (validate_and_fix parse schema_path (some (.ok schema)) input).repairCalls =
        []) ∧
    (∀ e1 data, parse input = .error e1 →
      parse (heuristic_repair input) = .ok data →
      (validate_and_fix parse schema_path (some (.ok schema)) input).parseCalls =
        [input, heuristic_repair input] ∧
      (validate_and_fix parse schema_path (some (.ok schema)) input).repairCalls =
        [input]) ∧
    (∀ e1 e2, parse input = .error e1 →
      parse (heuristic_repair input) = .error e2 →
      (validate_and_fix parse schema_path (some (.ok schema)) input).parseCalls =
        [input, heuristic_repair input] ∧
      (validate_and_fix parse schema_path (some (.ok schema)) input).repairCalls =
        [input] ∧
      (validate_and_fix parse schema_path (some (.ok schema)) input).exitCode = 1 ∧
      (validate_and_fix parse schema_path (some (.ok schema)) input).stderrLines =
        [warnRepairLine, syntaxFailLine, "DETAILS: " ++ e2.msg]) := by
  have hni : normInput input = input := by
    unfold normInput
    rw [if_neg]
    rintro (hh | hh)
    · exact h0 hh
    · exact h1 hh
  refine ⟨?_, ?_, ?_⟩
  · intro data hp
    have hv : validate_and_fix parse schema_path (some (.ok schema)) input =
        finishRun schema data [] [input] [] := by
      unfold validate_and_fix
      simp only [hni, hp]
    rw [hv]
    exact ⟨(finishRun_calls schema data [] [input] []).1,
      (finishRun_calls schema data [] [input] []).2.1⟩
  · intro e1 data hp1 hp2
    have hv : validate_and_fix parse schema_path (some (.ok schema)) input =
        finishRun schema data [warnRepairLine, repairSuccessLine]
          [input, heuristic_repair input] [input] := by
      unfold validate_and_fix
      simp only [hni, hp1, hp2]
    rw [hv]
    exact ⟨(finishRun_calls schema data _ _ _).1,
      (finishRun_calls schema data _ _ _).2.1⟩
  · intro e1 e2 hp1 hp2
    have hv : validate_and_fix parse schema_path (some (.ok schema)) input =
        { outcome := .fatalExit
          stderrLines := [warnRepairLine, syntaxFailLine, "DETAILS: " ++ e2.msg]
          parseCalls := [input, heuristic_repair input]
          repairCalls := [input] } := by
      unfold validate_and_fix
      simp only [hni, hp1, hp2]
    rw [hv]
    exact ⟨rfl, rfl, rfl, rfl⟩

/-- C5 witness: a parser that always fails, on input `"x"`: two parse
attempts, one repair call, exit code 1, and the second attempt's message. -/
theorem claim_C5_witness :
    (validate_and_fix (fun _ => Except.error ⟨"bad", 1, 1, 0⟩) "s"
        (some (.ok (JVal.obj []))) "x").parseCalls =
      ["x", heuristic_repair "x"] ∧
    (validate_and_fix (fun _ => Except.error ⟨"bad", 1, 1, 0⟩) "s"
        (some (.ok (JVal.obj []))) "x").repairCalls = ["x"] ∧
    (validate_and_fix (fun _ => Except.error ⟨"bad", 1, 1, 0⟩) "s"
        (some (.ok (JVal.obj []))) "x").exitCode = 1 ∧
    (validate_and_fix (fun _ => Except.error ⟨"bad", 1, 1, 0⟩) "s"
        (some (.ok (JVal.obj []))) "x").stderrLines =
      [warnRepairLine, syntaxFailLine, "DETAILS: bad"] :=
  (claim_C5 (fun _ => Except.error ⟨"bad", 1, 1, 0⟩) "s" (JVal.obj []) "x"
    (by decide) (by decide)).2.2 ⟨"bad", 1, 1, 0⟩ ⟨"bad", 1, 1, 0⟩ rfl rfl

/-- C1 counterexample: a run in which both parse attempts fail with an
error at line 3, column 14, offset 2 exits with code 1 but the diagnostic
lines contain neither the line number, nor the column number, nor the
±20-character snippet of the repaired text — refuting the claim that the
syntax-error description contains line, column and snippet. -/
theorem claim_C1_counterexample :
    (validate_and_fix (fun _ => Except.error ⟨"Expecting value", 3, 14, 2⟩)
        "schema.json" (some (.ok (JVal.obj []))) "hello").exitCode = 1 ∧
    (validate_and_fix (fun _ => Except.error ⟨"Expecting value", 3, 14, 2⟩)
        "schema.json" (some (.ok (JVal.obj []))) "hello").stderrLines =
      [warnRepairLine, syntaxFailLine, "DETAILS: Expecting value"] ∧
    ((validate_and_fix (fun _ => Except.error ⟨"Expecting value", 3, 14, 2⟩)
        "schema.json" (some (.ok (JVal.obj []))) "hello").stderrLines.all
      (fun l => !containsSub l "3" && !containsSub l "14" &&
        !containsSub l (pySlice (heuristic_repair "hello") (2 - 20) (2 + 20)))) =
      true :=
  ⟨rfl, rfl, by decide⟩

/-- C1 (amended): when both parse attempts fail, `validate_and_fix` exits
with code 1, emits no document, and writes a diagnostic containing only the
parser's message (`DETAILS: <msg>`) — the line, column and bounded snippet
are not part of it; the line/column/±20-character-snippet diagnostic is
produced only by `repair_and_write` (resilient-config-patcher), which
parses the original content without any repair attempt. -/
theorem claim_C1_theorem (parse : String → Except JsonError Doc)
    (schema_path : String) (schema : JVal) (input : String) (e1 e2 : JsonError)
    (h0 : ¬ input = "") (h1 : ¬ pstripStr input = "None")
    (hp1 : parse input = .error e1)
    (hp2 : parse (heuristic_repair input) = .error e2) :
    ((validate_and_fix parse schema_path (some (.ok schema)) input).exitCode =
        1 ∧
      (validate_and_fix parse schema_path (some (.ok schema)) input).document =
        none ∧
      (validate_and_fix parse schema_path (some (.ok schema)) input).stderrLines =
        [warnRepairLine, syntaxFailLine, "DETAILS: " ++ e2.msg]) ∧
    (∀ (filepath content : String) (e : JsonError), parse content = .error e →
      (repair_and_write parse filepath content).exitCode = 1 ∧
      (repair_and_write parse filepath content).stderrLines =
        ["JSON_ERROR: " ++ e.msg,
         "LOCATION: Line " ++ toString e.lineno ++ ", Column " ++
           toString e.colno,
         "SNIPPET: ..." ++ pySlice content (e.pos - 20) (e.pos + 20) ++
           "..."]) := by
  have hni : normInput input = input := by
    unfold normInput
    rw [if_neg]
    rintro (hh | hh)
    · exact h0 hh
    · exact h1 hh
  constructor
  · have hv : validate_and_fix parse schema_path (some (.ok schema)) input =
        { outcome := .fatalExit
          stderrLines := [warnRepairLine, syntaxFailLine, "DETAILS: " ++ e2.msg]
          parseCalls := [input, heuristic_repair input]
          repairCalls := [input] } := by
      unfold validate_and_fix
      simp only [hni, hp1, hp2]
    rw [hv]
    exact ⟨rfl, rfl, rfl⟩
  · intro filepath content e hpe
    have hv : repair_and_write parse filepath content =
        { exitCode := 1
          stdoutLines := []
          stderrLines :=
            ["JSON_ERROR: " ++ e.msg,
             "LOCATION: Line " ++ toString e.lineno ++ ", Column " ++
               toString e.colno,
             "SNIPPET: ..." ++ pySlice content (e.pos - 20) (e.pos + 20) ++
               "..."]
          written := none } := by
      unfold repair_and_write
      simp only [hpe]
    rw [hv]
    exact ⟨rfl, rfl⟩

/-- C1 witness: the amended theorem at a concrete always-failing parser:
the pipeline's fatal diagnostic carries only the message, while
`repair_and_write` on content `"zz"` reports message, line 3, column 14 and
the clipped snippet of the original content. -/
theorem claim_C1_witness :
    ((validate_and_fix (fun _ => Except.error ⟨"Expecting value", 3, 14, 2⟩)
        "schema.json" (some (.ok (JVal.obj []))) "zz").exitCode = 1 ∧
      (validate_and_fix (fun _ => Except.error ⟨"Expecting value", 3, 14, 2⟩)
        "schema.json" (some (.ok (JVal.obj []))) "zz").document = none ∧
      (validate_and_fix (fun _ => Except.error ⟨"Expecting value", 3, 14, 2⟩)
        "schema.json" (some (.ok (JVal.obj []))) "zz").stderrLines =
        [warnRepairLine, syntaxFailLine, "DETAILS: Expecting value"]) ∧
    ((repair_and_write (fun _ => Except.error ⟨"Expecting value", 3, 14, 2⟩)
        "f.json" "zz").exitCode = 1 ∧
      (repair_and_write (fun _ => Except.error ⟨"Expecting value", 3, 14, 2⟩)
        "f.json" "zz").stderrLines =
        ["JSON_ERROR: Expecting value", "LOCATION: Line 3, Column 14",
         "SNIPPET: ...zz..."]) :=
  ⟨(claim_C1_theorem (fun _ => Except.error ⟨"Expecting value", 3, 14, 2⟩)
      "schema.json" (JVal.obj []) "zz" ⟨"Expecting value", 3, 14, 2⟩
      ⟨"Expecting value", 3, 14, 2⟩ (by decide) (by decide) rfl rfl).1,
   (claim_C1_theorem (fun _ => Except.error ⟨"Expecting value", 3, 14, 2⟩)
      "schema.json" (JVal.obj []) "zz" ⟨"Expecting value", 3, 14, 2⟩
      ⟨"Expecting value", 3, 14, 2⟩ (by decide) (by decide) rfl rfl).2
     "f.json" "zz" ⟨"Expecting value", 3, 14, 2⟩ rfl⟩

/-- C2 counterexample: a schema file that parses but has no `fields` key is
not rejected: with schema value `{"a": 1}` and input `{}`, the run emits a
document and exits 0 — refuting the claim that a missing `fields` list is a
fatal SchemaMalformed error with no document and non-zero exit. -/
theorem claim_C2_counterexample :
    (validate_and_fix
        (fun s => if s = "\x7b\x7d" then Except.ok [] else
          Except.error ⟨"", 0, 0, 0⟩)
        "schema.json" (some (.ok (JVal.obj [("a", JVal.int 1)])))
        "\x7b\x7d").exitCode = 0 ∧
    (validate_and_fix
        (fun s => if s = "\x7b\x7d" then Except.ok [] else
          Except.error ⟨"", 0, 0, 0⟩)
        "schema.json" (some (.ok (JVal.obj [("a", JVal.int 1)])))
        "\x7b\x7d").document = some [] :=
  ⟨rfl, rfl⟩

/-- C2 (amended): schema loading fails fast with exit code 1, no document
and a `Schema file not found` diagnostic when the path does not resolve,
and with a `is invalid JSON` diagnostic when the file does not parse; but a
parsed schema whose `fields` key is missing is treated as an empty field
list (the document is emitted and the exit code is 0), and a field spec
lacking `name` raises an uncaught KeyError — a non-zero exit with no
document, by interpreter crash rather than a reported schema error. -/
theorem claim_C2_theorem (parse : String → Except JsonError Doc)
    (schema_path input : String) :
    ((validate_and_fix parse schema_path none input).exitCode = 1 ∧
      (validate_and_fix parse schema_path none input).document = none ∧
      (validate_and_fix parse schema_path none input).stderrLines =
        ["CRITICAL ERROR: Schema file not found at " ++ schema_path]) ∧
    ((validate_and_fix parse schema_path (some (.error ())) input).exitCode =
        1 ∧
      (validate_and_fix parse schema_path (some (.error ())) input).document =
        none ∧
      (validate_and_fix parse schema_path (some (.error ())) input).stderrLines =
        ["CRITICAL ERROR: Schema file at " ++ schema_path ++
          " is invalid JSON."]) ∧
    (∀ (obj : List (String × JVal)) (data : Doc),
      pyLookup obj "fields" = none →
      parse (normInput input) = .ok data →
      (validate_and_fix parse schema_path (some (.ok (JVal.obj obj)))
          input).outcome = .ok (passThrough [] data) [] ∧
      (validate_and_fix parse schema_path (some (.ok (JVal.obj obj)))
          input).exitCode = 0) ∧
    (∀ (fobj : List (String × JVal)) (rest : List JVal) (data : Doc),
      pyLookup fobj "name" = none →
      parse (normInput input) = .ok data →
      (validate_and_fix parse schema_path
          (some (.ok (JVal.obj [("fields",
            JVal.list (JVal.obj fobj :: rest))]))) input).outcome =
        .crash .keyError ∧
      (validate_and_fix parse schema_path
          (some (.ok (JVal.obj [("fields",
            JVal.list (JVal.obj fobj :: rest))]))) input).exitCode = 1 ∧
      (validate_and_fix parse schema_path
          (some (.ok (JVal.obj [("fields",
            JVal.list (JVal.obj fobj :: rest))]))) input).document = none) := by
  refine ⟨⟨rfl, rfl, rfl⟩, ⟨rfl, rfl, rfl⟩, ?_, ?_⟩
  · intro obj data hno hp
    have hfields : fieldsOf (JVal.obj obj) = .ok [] := by
      simp only [fieldsOf]
      unfold pyGet
      rw [hno]
      rfl
    have hall : enforceAll (JVal.obj obj) data =
        .ok (passThrough [] data, []) := by
      have he : enforceAll (JVal.obj obj) data =
          (match fieldsOf (JVal.obj obj) with
           | .error e => Except.error e
           | .ok fields =>
             match enforceLoop data fields [] [] with
             | .error e => Except.error e
             | .ok (od, cs0) => Except.ok (passThrough od data, cs0)) := rfl
      rw [he, hfields]
      rfl
    have hv : validate_and_fix parse schema_path (some (.ok (JVal.obj obj)))
        input = finishRun (JVal.obj obj) data [] [normInput input] [] := by
      unfold validate_and_fix
      simp only [hp]
    rw [hv]
    unfold finishRun
    rw [hall]
    exact ⟨rfl, rfl⟩
  · intro fobj rest data hno hp
    have hstep : enforceStep data [] [] (JVal.obj fobj) = .error .keyError := by
      rw [enforceStep_obj, hno]
      rfl
    have hloop : enforceLoop data (JVal.obj fobj :: rest) [] [] =
        .error .keyError := by
      rw [enforceLoop_cons, hstep]
    have hall : enforceAll
        (JVal.obj [("fields", JVal.list (JVal.obj fobj :: rest))]) data =
        .error .keyError := by
      have he : enforceAll
          (JVal.obj [("fields", JVal.list (JVal.obj fobj :: rest))]) data =
          (match enforceLoop data (JVal.obj fobj :: rest) [] [] with
           | .error e => Except.error e
           | .ok (od, cs0) => Except.ok (passThrough od data, cs0)) := rfl
      rw [he, hloop]
    have hv : validate_and_fix parse schema_path
        (some (.ok (JVal.obj [("fields", JVal.list (JVal.obj fobj :: rest))])))
        input =
        finishRun (JVal.obj [("fields", JVal.list (JVal.obj fobj :: rest))])
          data [] [normInput input] [] := by
      unfold validate_and_fix
      simp only [hp]
    rw [hv]
    unfold finishRun
    rw [hall]
    exact ⟨rfl, rfl, rfl⟩

/-- C2 witness: the amended theorem's missing-`fields` branch at the
concrete schema value `{"a": 1}` and input `{}`: the run proceeds normally
and exits 0. -/
theorem claim_C2_witness :
    (validate_and_fix
        (fun s => if s = "\x7b\x7d" then Except.ok [] else
          Except.error ⟨"", 0, 0, 0⟩)
        "sp" (some (.ok (JVal.obj [("a", JVal.int 1)]))) "\x7b\x7d").outcome =
      .ok (passThrough [] []) [] ∧
    (validate_and_fix
        (fun s => if s = "\x7b\x7d" then Except.ok [] else
          Except.error ⟨"", 0, 0, 0⟩)
        "sp" (some (.ok (JVal.obj [("a", JVal.int 1)]))) "\x7b\x7d").exitCode =
      0 :=
  (claim_C2_theorem
      (fun s => if s = "\x7b\x7d" then Except.ok [] else
        Except.error ⟨"", 0, 0, 0⟩)
      "sp" "\x7b\x7d").2.2.1 [("a", JVal.int 1)] [] rfl rfl

end Enforcer
